import Mathlib

/-!
Verification of the expense-approval workflow engine of the
Company-Expense-Management repository.

The definitions below are a shallow embedding of the JavaScript source:
* `src/routes/approvals.js` — the approve / reject decision handlers;
* `src/routes/expenses.js` — expense submission (`POST /api/expenses`);
* `src/models/*.js` and the middleware — the data model and the
  authentication / authorization guards.

Mongo object ids are modelled as `Nat`, JS numbers occurring in the
decision logic as `ℚ` (the percentage computation involves only small
exact values, so rational arithmetic agrees with IEEE doubles on every
comparison performed here), and timestamps as an abstract `Nat` clock
value passed in by the caller.  Mongoose `save()` is modelled as an
update-by-id on the in-memory list of records; `findById` / `findOne`
as `List.find?`.
-/

set_option maxHeartbeats 4000000

namespace ExpenseApp

/-- Status enum of the Approval (approval-task) schema. -/
inductive ApprovalStatus where
  | pending
  | approved
  | rejected
deriving DecidableEq, Repr

/-- Status enum of the Expense schema. -/
inductive ExpenseStatus where
  | pending
  | approved
  | rejected
  | partiallyApproved
deriving DecidableEq, Repr

/-- User roles (User schema). -/
inductive Role where
  | employee
  | manager
  | admin
deriving DecidableEq, Repr

/-- The `company.settings.approvalRules` enum (Company schema). -/
inductive ApprovalRules where
  | percentage
  | specific
  | hybrid
deriving DecidableEq, Repr

/-- A user record (the fields of the User schema the engine reads). -/
structure User where
  id : Nat
  company : Nat
  role : Role
  isActive : Bool
  manager : Option Nat
deriving DecidableEq, Repr

/-- The `company.settings` record (Company schema).  `percentageThreshold` is a JS
number (schema default 60, min 0, max 100). -/
structure CompanySettings where
  approvalRules : ApprovalRules
  percentageThreshold : ℚ
  specificApprovers : List Nat
deriving DecidableEq, Repr

/-- A company record. -/
structure Company where
  id : Nat
  currency : String
  settings : CompanySettings
deriving DecidableEq, Repr

/-- An entry of `expense.approvedBy` (audit history of approvals). -/
structure ApprovalEvent where
  user : Nat
  level : Nat
  approvedAt : Nat
  comments : Option String
deriving DecidableEq, Repr

/-- An entry of `expense.rejectedBy` (audit history of rejections). -/
structure RejectionEvent where
  user : Nat
  level : Nat
  rejectedAt : Nat
  reason : String
deriving DecidableEq, Repr

/-- An expense record (the fields of the Expense schema the claims are
about; receipt/OCR/tag metadata is omitted as it is never read or
written by the decision handlers). -/
structure Expense where
  id : Nat
  employee : Nat
  company : Nat
  amount : ℚ
  currency : String
  convertedAmount : ℚ
  exchangeRate : ℚ
  status : ExpenseStatus
  currentApprover : Option Nat
  approvalLevel : Nat
  rejectionReason : Option String
  approvedBy : List ApprovalEvent
  rejectedBy : List RejectionEvent
deriving DecidableEq, Repr

/-- An approval-task record (Approval schema; due-date / reminder
bookkeeping omitted — never read by the decision logic). -/
structure Approval where
  id : Nat
  expense : Nat
  approver : Nat
  level : Nat
  status : ApprovalStatus
  comments : Option String
  rejectionReason : Option String
  approvedAt : Option Nat
deriving DecidableEq, Repr

/-- The persisted state: the collections the engine reads and writes,
plus fresh-id counters standing in for Mongo object-id generation. -/
structure State where
  companies : List Company
  users : List User
  expenses : List Expense
  approvals : List Approval
  nextExpenseId : Nat
  nextApprovalId : Nat
deriving DecidableEq, Repr

/-- Result of one HTTP handler invocation: the response status code and
message, and the persisted state after the call (errors raised before
any `save()` carry the unchanged input state). -/
inductive HResult where
  | ok (st : State)
  | err (httpStatus : Nat) (msg : String) (st : State)
deriving DecidableEq, Repr

/-- Lookup `Approval.findById(id)`. -/
def findApproval (st : State) (id : Nat) : Option Approval :=
  st.approvals.find? (fun a => decide (a.id = id))

/-- Lookup `Expense.findById(id)` (also `.populate('expense')`). -/
def findExpense (st : State) (id : Nat) : Option Expense :=
  st.expenses.find? (fun e => decide (e.id = id))

/-- Lookup `Company.findById(id)`. -/
def findCompany (st : State) (id : Nat) : Option Company :=
  st.companies.find? (fun c => decide (c.id = id))

/-- Lookup `User.findById(id)`. -/
def findUser (st : State) (id : Nat) : Option User :=
  st.users.find? (fun u => decide (u.id = id))

/-- Persisting `approval.save()`: replace the stored record with the given id. -/
def saveApproval (l : List Approval) (a : Approval) : List Approval :=
  l.map (fun x => if x.id = a.id then a else x)

/-- Persisting `expense.save()`: replace the stored record with the given id. -/
def saveExpense (l : List Expense) (e : Expense) : List Expense :=
  l.map (fun x => if x.id = e.id then e else x)

/-- Query of all tasks created so far for
one expense. -/
def approvalsFor (l : List Approval) (eid : Nat) : List Approval :=
  l.filter (fun a => decide (a.expense = eid))

/-- approvals.js line 130: count of tasks of the expense whose status
is `approved`. -/
def approvedCount (l : List Approval) (eid : Nat) : Nat :=
  ((approvalsFor l eid).filter (fun a => decide (a.status = .approved))).length

/-- approvals.js line 131: count of all tasks created so far for the
expense. -/
def totalCount (l : List Approval) (eid : Nat) : Nat :=
  (approvalsFor l eid).length

/-- approvals.js lines 110–112: the acting task updated to `approved`
with the optional comment and the decision timestamp. -/
def savedActing (a : Approval) (comments : Option String) (now : Nat) : Approval :=
  { a with status := .approved, comments := comments, approvedAt := some now }

/-- JS `company.settings.percentageThreshold || 60`: the `||` substitutes
the default for every falsy value, so a configured threshold of `0`
also becomes `60`. -/
def effectiveThreshold (t : ℚ) : ℚ :=
  if t = 0 then 60 else t

/-- approvals.js lines 133–139: the specific-approver rule.  True when
`approvalRules` is `specific` or `hybrid` and the acting user's id is
in `company.settings.specificApprovers`. -/
def specificRuleMet (s : CompanySettings) (uid : Nat) : Bool :=
  decide ((s.approvalRules = .specific ∨ s.approvalRules = .hybrid) ∧
    uid ∈ s.specificApprovers)

/-- approvals.js lines 141–148: the percentage rule.
`(approvedCount / totalApprovers) * 100 >= threshold` (ties count as
satisfied). -/
def percentageRuleMet (s : CompanySettings) (approvedCount totalApprovers : Nat) : Bool :=
  decide ((approvedCount : ℚ) / (totalApprovers : ℚ) * 100 ≥
    effectiveThreshold s.percentageThreshold)

/-- approvals.js lines 125–153: the combined `shouldApprove` flag — the
specific rule first, then (only when still false) the percentage rule
when the mode is `percentage` or `hybrid`. -/
def shouldApproveFlag (s : CompanySettings) (uid : Nat)
    (approvedCount totalApprovers : Nat) : Bool :=
  if specificRuleMet s uid then true
  else if s.approvalRules = .percentage ∨ s.approvalRules = .hybrid then
    percentageRuleMet s approvedCount totalApprovers
  else false

/-- approvals.js line 161: chain-length cap,
`approvalRules === 'percentage' ? 3 : 2`. -/
def totalLevels (s : CompanySettings) : Nat :=
  if s.approvalRules = .percentage then 3 else 2

/-- approvals.js lines 172–182: next-approver resolution.  When the
mode is `specific` *and* the list is non-empty, index it at
`nextLevel - 1` (an out-of-range index is `undefined`, i.e. `none`);
otherwise `User.findOne({ company, role })` with role `manager` for
level 2 and `admin` for any higher level — note the query does not
filter on `isActive`. -/
def resolveNextApprover (st : State) (c : Company) (e : Expense)
    (nextLevel : Nat) : Option Nat :=
  if c.settings.approvalRules = .specific ∧ c.settings.specificApprovers.length > 0 then
    c.settings.specificApprovers[nextLevel - 1]?
  else
    (st.users.find? (fun u => decide (u.company = e.company ∧
      u.role = (if nextLevel = 2 then Role.manager else Role.admin)))).map User.id

/-- Route `POST /api/approvals/:id/approve` (approvals.js lines 76–214),
after the `auth` / `authorize` middleware (modelled separately in
`approveRoute`).  The guards precede every write; the acting task is
saved as `approved` before the expense/company records are read, so
the (unreachable-in-practice) dangling-reference branches return 500
with the task update already persisted, exactly as the JS would. -/
def approveHandler (st : State) (approvalId actingUser : Nat)
    (comments : Option String) (now : Nat) : HResult :=
  match findApproval st approvalId with
  | none => .err 404 "Approval not found" st
  | some approval =>
    if approval.approver ≠ actingUser then
      .err 403 "You are not authorized to approve this expense" st
    else if approval.status ≠ .pending then
      .err 400 "This approval has already been processed" st
    else
      -- lines 110–113: update and save the acting task
      let approval' := savedActing approval comments now
      let approvals₁ := saveApproval st.approvals approval'
      match findExpense st approval.expense with
      | none => .err 500 "Server error" { st with approvals := approvals₁ }
      | some expense =>
        -- lines 116–121: push to expense.approvedBy (in memory)
        let expense₁ :=
          { expense with approvedBy := expense.approvedBy ++
              [ApprovalEvent.mk actingUser approval.level now comments] }
        match findCompany st expense.company with
        | none => .err 500 "Server error" { st with approvals := approvals₁ }
        | some company =>
          -- lines 128–131: counts over all tasks created so far
          -- (including the just-saved acting task)
          let approvedCnt := approvedCount approvals₁ expense.id
          let totalCnt := totalCount approvals₁ expense.id
          if shouldApproveFlag company.settings actingUser approvedCnt totalCnt then
            -- lines 155–158: conditional rule met — finalize
            let expense₂ := { expense₁ with status := .approved, currentApprover := none }
            .ok { st with approvals := approvals₁,
                          expenses := saveExpense st.expenses expense₂ }
          else if approval.level ≥ totalLevels company.settings then
            -- lines 163–166: cap reached — auto-approve as fallback
            let expense₂ := { expense₁ with status := .approved, currentApprover := none }
            .ok { st with approvals := approvals₁,
                          expenses := saveExpense st.expenses expense₂ }
          else
            -- lines 167–201: move to the next level
            let nextLevel := approval.level + 1
            match resolveNextApprover st company expense nextLevel with
            | some nextApprover =>
              let nextApproval : Approval :=
                ⟨st.nextApprovalId, expense.id, nextApprover, nextLevel,
                 .pending, none, none, none⟩
              let expense₂ := { expense₁ with currentApprover := some nextApprover,
                                              approvalLevel := nextLevel }
              .ok { st with approvals := approvals₁ ++ [nextApproval],
                            expenses := saveExpense st.expenses expense₂,
                            nextApprovalId := st.nextApprovalId + 1 }
            | none =>
              -- lines 196–200: no more approvers — auto-approve
              let expense₂ := { expense₁ with status := .approved, currentApprover := none }
              .ok { st with approvals := approvals₁,
                            expenses := saveExpense st.expenses expense₂ }

/-- Route `POST /api/approvals/:id/reject` (approvals.js lines 251–314),
after the middleware.  The express-validator `reason` non-emptiness
check runs first (lines 258–261). -/
def rejectHandler (st : State) (approvalId actingUser : Nat)
    (reason : String) (comments : Option String) (now : Nat) : HResult :=
  if reason = "" then
    .err 400 "Rejection reason is required" st
  else
    match findApproval st approvalId with
    | none => .err 404 "Approval not found" st
    | some approval =>
      if approval.approver ≠ actingUser then
        .err 403 "You are not authorized to reject this expense" st
      else if approval.status ≠ .pending then
        .err 400 "This approval has already been processed" st
      else
        let approval' : Approval :=
          { approval with status := .rejected, rejectionReason := some reason,
                          comments := comments, approvedAt := some now }
        let approvals₁ := saveApproval st.approvals approval'
        match findExpense st approval.expense with
        | none => .err 500 "Server error" { st with approvals := approvals₁ }
        | some expense =>
          -- lines 292–302: expense → rejected unconditionally
          let expense' :=
            { expense with status := .rejected, rejectionReason := some reason,
                           currentApprover := none,
                           rejectedBy := expense.rejectedBy ++
                             [RejectionEvent.mk actingUser approval.level now reason] }
          .ok { st with approvals := approvals₁,
                        expenses := saveExpense st.expenses expense' }

/-- The `auth` middleware (middleware/auth.js): look up the bearer
user, require the account to exist and be active. -/
def authUser (st : State) (uid : Nat) : Option User :=
  match findUser st uid with
  | none => none
  | some u => if u.isActive then some u else none

/-- Full approve route: `auth` + `authorize('manager','admin')` +
handler. -/
def approveRoute (st : State) (actingUserId approvalId : Nat)
    (comments : Option String) (now : Nat) : HResult :=
  match authUser st actingUserId with
  | none => .err 401 "Token is not valid" st
  | some user =>
    if user.role = .manager ∨ user.role = .admin then
      approveHandler st approvalId user.id comments now
    else
      .err 403 "Access denied. Required role: manager or admin" st

/-- Full reject route: `auth` + `authorize('manager','admin')` +
handler. -/
def rejectRoute (st : State) (actingUserId approvalId : Nat)
    (reason : String) (comments : Option String) (now : Nat) : HResult :=
  match authUser st actingUserId with
  | none => .err 401 "Token is not valid" st
  | some user =>
    if user.role = .manager ∨ user.role = .admin then
      rejectHandler st approvalId user.id reason comments now
    else
      .err 403 "Access denied. Required role: manager or admin" st

/-- Route `POST /api/expenses` (expenses.js lines 188–257): create the
expense (status `pending`, `currentApprover` null, level 1 by schema
defaults), then look up the submitting employee's direct manager; when
found, create the level-1 task and set `currentApprover`.  Currency
conversion is the external collaborator: the caller passes the rate,
`convertedAmount = amount * rate` as returned by `convertCurrency`. -/
def submitExpense (st : State) (actingUserId : Nat) (amount : ℚ)
    (currency : String) (rate : ℚ) : HResult :=
  match authUser st actingUserId with
  | none => .err 401 "Token is not valid" st
  | some user =>
    match findCompany st user.company with
    | none => .err 400 "Company not found" st
    | some _company =>
      let expense : Expense :=
        { id := st.nextExpenseId, employee := user.id, company := user.company,
          amount := amount, currency := currency,
          convertedAmount := amount * rate, exchangeRate := rate,
          status := .pending, currentApprover := none, approvalLevel := 1,
          rejectionReason := none, approvedBy := [], rejectedBy := [] }
      let st₁ := { st with expenses := st.expenses ++ [expense],
                           nextExpenseId := st.nextExpenseId + 1 }
      match user.manager.bind (fun mid => findUser st mid) with
      | some manager =>
        let approval : Approval :=
          ⟨st.nextApprovalId, expense.id, manager.id, 1, .pending, none, none, none⟩
        let expense' := { expense with currentApprover := some manager.id }
        .ok { st₁ with approvals := st₁.approvals ++ [approval],
                       expenses := saveExpense st₁.expenses expense',
                       nextApprovalId := st.nextApprovalId + 1 }
      | none => .ok st₁

/-- One successful engine operation: a submit, approve or reject call
that returned 2xx. -/
def Step (st st' : State) : Prop :=
  (∃ uid amount currency rate,
      submitExpense st uid amount currency rate = .ok st') ∨
  (∃ uid aid comments now, approveRoute st uid aid comments now = .ok st') ∨
  (∃ uid aid reason comments now,
      rejectRoute st uid aid reason comments now = .ok st')

/-- A state with no expenses and no approval tasks yet (users and
companies arbitrary). -/
def InitState (st : State) : Prop :=
  st.expenses = [] ∧ st.approvals = []

/-- Reachability via successful engine operations. -/
def Reachable (st₀ st : State) : Prop :=
  Relation.ReflTransGen Step st₀ st

/-! ### Generic list lemmas about keyed lookup and update -/

/-- Replacing the record that a keyed `find?` located (by a record with
the same key) makes the same `find?` return the replacement. -/
theorem find?_update_key {α : Type} (key : α → Nat) (l : List α) (a a' : α)
    (x : Nat) (h : l.find? (fun b => decide (key b = x)) = some a)
    (hid : key a' = key a) :
    (l.map (fun b => if key b = key a' then a' else b)).find?
      (fun b => decide (key b = x)) = some a' := by
  have hax : key a = x := by
    have := List.find?_some h
    simpa using this
  induction l with
  | nil => simp at h
  | cons b t ih =>
    by_cases hb : key b = x
    · have hpos : (fun y => decide (key y = x)) b = true := by simpa using hb
      rw [List.find?_cons_of_pos (p := fun y => decide (key y = x)) t hpos] at h
      have hba : b = a := Option.some.inj h
      subst hba
      have hkey : key b = key a' := by rw [hid]
      simp only [List.map_cons, if_pos hkey]
      have hpos' : (fun y => decide (key y = x)) a' = true := by
        simp [hid, hax]
      rw [List.find?_cons_of_pos (p := fun y => decide (key y = x)) _ hpos']
    · have hneg : ¬ (fun y => decide (key y = x)) b = true := by simpa using hb
      rw [List.find?_cons_of_neg (p := fun y => decide (key y = x)) t hneg] at h
      have hbk : ¬ key b = key a' := by rw [hid, hax]; exact hb
      simp only [List.map_cons, if_neg hbk]
      rw [List.find?_cons_of_neg (p := fun y => decide (key y = x)) _ hneg]
      exact ih h

/-- Lookup `findExpense` after `saveExpense` returns the saved record when the
original was found under the same id. -/
theorem findExpense_save (l : List Expense) (e e' : Expense) (x : Nat)
    (h : l.find? (fun b => decide (b.id = x)) = some e) (hid : e'.id = e.id) :
    (saveExpense l e').find? (fun b => decide (b.id = x)) = some e' :=
  find?_update_key Expense.id l e e' x h hid

/-- Lookup `findApproval` after `saveApproval` returns the saved record when
the original was found under the same id. -/
theorem findApproval_save (l : List Approval) (a a' : Approval) (x : Nat)
    (h : l.find? (fun b => decide (b.id = x)) = some a) (hid : a'.id = a.id) :
    (saveApproval l a').find? (fun b => decide (b.id = x)) = some a' :=
  find?_update_key Approval.id l a a' x h hid

/-! ### Facts about the rule evaluation -/

/-- The specific-approver rule holds when the mode allows it and the
acting user is listed. -/
theorem specificRuleMet_true (s : CompanySettings) (uid : Nat)
    (hr : s.approvalRules = .specific ∨ s.approvalRules = .hybrid)
    (hm : uid ∈ s.specificApprovers) : specificRuleMet s uid = true :=
  decide_eq_true ⟨hr, hm⟩

/-- A satisfied specific rule makes `shouldApprove` true. -/
theorem shouldApproveFlag_of_specific (s : CompanySettings) (uid ac tc : Nat)
    (h : specificRuleMet s uid = true) : shouldApproveFlag s uid ac tc = true := by
  simp [shouldApproveFlag, h]

/-- When the specific rule fails and the mode is `percentage` or
`hybrid`, `shouldApprove` is exactly the percentage rule. -/
theorem shouldApproveFlag_of_percentage (s : CompanySettings) (uid ac tc : Nat)
    (h : specificRuleMet s uid = false)
    (hr : s.approvalRules = .percentage ∨ s.approvalRules = .hybrid) :
    shouldApproveFlag s uid ac tc = percentageRuleMet s ac tc := by
  simp [shouldApproveFlag, h, hr]

/-! ### Evaluation equations for the handlers' success paths -/

/-- Equation: approve finalizing because a conditional rule is met
(approvals.js lines 155–158). -/
theorem approveHandler_eq_final
    (st : State) (aid uid : Nat) (cm : Option String) (now : Nat)
    (a : Approval) (e : Expense) (c : Company)
    (hfind : findApproval st aid = some a)
    (happ : a.approver = uid)
    (hpend : a.status = .pending)
    (hexp : findExpense st a.expense = some e)
    (hcomp : findCompany st e.company = some c)
    (hflag : shouldApproveFlag c.settings uid
        (approvedCount (saveApproval st.approvals (savedActing a cm now)) e.id)
        (totalCount (saveApproval st.approvals (savedActing a cm now)) e.id) = true) :
    approveHandler st aid uid cm now = .ok { st with
      approvals := saveApproval st.approvals (savedActing a cm now),
      expenses := saveExpense st.expenses { e with
        status := .approved, currentApprover := none,
        approvedBy := e.approvedBy ++ [ApprovalEvent.mk uid a.level now cm] } } := by
  unfold approveHandler
  simp only [hfind, happ, hpend, ne_eq, not_true_eq_false, if_false, hexp, hcomp, hflag,
    ite_false, ite_true, reduceIte]

/-- Equation: approve finalizing by the cap fallback (approvals.js
lines 163–166). -/
theorem approveHandler_eq_cap
    (st : State) (aid uid : Nat) (cm : Option String) (now : Nat)
    (a : Approval) (e : Expense) (c : Company)
    (hfind : findApproval st aid = some a)
    (happ : a.approver = uid)
    (hpend : a.status = .pending)
    (hexp : findExpense st a.expense = some e)
    (hcomp : findCompany st e.company = some c)
    (hflag : shouldApproveFlag c.settings uid
        (approvedCount (saveApproval st.approvals (savedActing a cm now)) e.id)
        (totalCount (saveApproval st.approvals (savedActing a cm now)) e.id) = false)
    (hcap : a.level ≥ totalLevels c.settings) :
    approveHandler st aid uid cm now = .ok { st with
      approvals := saveApproval st.approvals (savedActing a cm now),
      expenses := saveExpense st.expenses { e with
        status := .approved, currentApprover := none,
        approvedBy := e.approvedBy ++ [ApprovalEvent.mk uid a.level now cm] } } := by
  unfold approveHandler
  simp only [hfind, happ, hpend, ne_eq, not_true_eq_false, if_false, hexp, hcomp, hflag,
    ite_false, ite_true, reduceIte]
  rw [if_neg (by simp), if_pos hcap]

/-- Equation: approve advancing to the next level with a resolved next
approver (approvals.js lines 184–195). -/
theorem approveHandler_eq_advance
    (st : State) (aid uid : Nat) (cm : Option String) (now : Nat)
    (a : Approval) (e : Expense) (c : Company) (w : Nat)
    (hfind : findApproval st aid = some a)
    (happ : a.approver = uid)
    (hpend : a.status = .pending)
    (hexp : findExpense st a.expense = some e)
    (hcomp : findCompany st e.company = some c)
    (hflag : shouldApproveFlag c.settings uid
        (approvedCount (saveApproval st.approvals (savedActing a cm now)) e.id)
        (totalCount (saveApproval st.approvals (savedActing a cm now)) e.id) = false)
    (hlevel : a.level < totalLevels c.settings)
    (hres : resolveNextApprover st c e (a.level + 1) = some w) :
    approveHandler st aid uid cm now = .ok { st with
      approvals := saveApproval st.approvals (savedActing a cm now) ++
        [⟨st.nextApprovalId, e.id, w, a.level + 1, .pending, none, none, none⟩],
      expenses := saveExpense st.expenses { e with
        currentApprover := some w, approvalLevel := a.level + 1,
        approvedBy := e.approvedBy ++ [ApprovalEvent.mk uid a.level now cm] },
      nextApprovalId := st.nextApprovalId + 1 } := by
  unfold approveHandler
  simp only [hfind, happ, hpend, ne_eq, not_true_eq_false, if_false, hexp, hcomp, hflag,
    ite_false, ite_true, reduceIte]
  rw [if_neg (by simp), if_neg (not_le.mpr hlevel), hres]

/-- Equation: approve finalizing because no next approver is resolved
(approvals.js lines 196–200). -/
theorem approveHandler_eq_noapprover
    (st : State) (aid uid : Nat) (cm : Option String) (now : Nat)
    (a : Approval) (e : Expense) (c : Company)
    (hfind : findApproval st aid = some a)
    (happ : a.approver = uid)
    (hpend : a.status = .pending)
    (hexp : findExpense st a.expense = some e)
    (hcomp : findCompany st e.company = some c)
    (hflag : shouldApproveFlag c.settings uid
        (approvedCount (saveApproval st.approvals (savedActing a cm now)) e.id)
        (totalCount (saveApproval st.approvals (savedActing a cm now)) e.id) = false)
    (hlevel : a.level < totalLevels c.settings)
    (hres : resolveNextApprover st c e (a.level + 1) = none) :
    approveHandler st aid uid cm now = .ok { st with
      approvals := saveApproval st.approvals (savedActing a cm now),
      expenses := saveExpense st.expenses { e with
        status := .approved, currentApprover := none,
        approvedBy := e.approvedBy ++ [ApprovalEvent.mk uid a.level now cm] } } := by
  unfold approveHandler
  simp only [hfind, happ, hpend, ne_eq, not_true_eq_false, if_false, hexp, hcomp, hflag,
    ite_false, ite_true, reduceIte]
  rw [if_neg (by simp), if_neg (not_le.mpr hlevel), hres]

/-- Equation: successful reject (approvals.js lines 283–304). -/
theorem rejectHandler_eq_ok
    (st : State) (aid uid : Nat) (reason : String) (cm : Option String) (now : Nat)
    (a : Approval) (e : Expense)
    (hreason : reason ≠ "")
    (hfind : findApproval st aid = some a)
    (happ : a.approver = uid)
    (hpend : a.status = .pending)
    (hexp : findExpense st a.expense = some e) :
    rejectHandler st aid uid reason cm now = .ok { st with
      approvals := saveApproval st.approvals { a with
        status := .rejected, rejectionReason := some reason,
        comments := cm, approvedAt := some now },
      expenses := saveExpense st.expenses { e with
        status := .rejected, rejectionReason := some reason,
        currentApprover := none,
        rejectedBy := e.rejectedBy ++ [RejectionEvent.mk uid a.level now reason] } } := by
  unfold rejectHandler
  rw [if_neg hreason]
  simp only [hfind, happ, hpend, ne_eq, not_true_eq_false, if_false, hexp,
    ite_false, ite_true, reduceIte]

/-- The raw `find?` fact behind a successful `findExpense`. -/
theorem findExpense_eq_id (st : State) (x : Nat) (e : Expense)
    (h : findExpense st x = some e) : e.id = x := by
  have := List.find?_some h
  simpa using this

/-- The raw `find?` fact behind a successful `findApproval`. -/
theorem findApproval_eq_id (st : State) (x : Nat) (a : Approval)
    (h : findApproval st x = some a) : a.id = x := by
  have := List.find?_some h
  simpa using this

/-- C2 — For every approve decision where the company's
`approvalRules` is `specific` or `hybrid` and the acting approver's id
is a member of `specificApprovers`, recording the approval finalizes
the expense as approved with `currentApprover = none`, unconditionally
(no hypothesis on the fraction of approved tasks or on the level). -/
theorem c2_specific_approver_short_circuit
    (st : State) (aid uid : Nat) (cm : Option String) (now : Nat)
    (a : Approval) (e : Expense) (c : Company)
    (hfind : findApproval st aid = some a)
    (happ : a.approver = uid)
    (hpend : a.status = .pending)
    (hexp : findExpense st a.expense = some e)
    (hcomp : findCompany st e.company = some c)
    (hrules : c.settings.approvalRules = .specific ∨ c.settings.approvalRules = .hybrid)
    (hmem : uid ∈ c.settings.specificApprovers) :
    ∃ st', approveHandler st aid uid cm now = .ok st' ∧
      findExpense st' e.id = some { e with
        status := .approved, currentApprover := none,
        approvedBy := e.approvedBy ++ [ApprovalEvent.mk uid a.level now cm] } := by
  have heid : e.id = a.expense := findExpense_eq_id st a.expense e hexp
  have hflag : ∀ ac tc, shouldApproveFlag c.settings uid ac tc = true := fun ac tc =>
    shouldApproveFlag_of_specific _ _ _ _ (specificRuleMet_true _ _ hrules hmem)
  unfold approveHandler
  simp only [hfind, happ, hpend, ne_eq, not_true_eq_false, if_false, hexp, hcomp, hflag,
    ite_false, ite_true, reduceIte]
  refine ⟨_, rfl, ?_⟩
  show (saveExpense st.expenses _).find? _ = _
  have hexp' : st.expenses.find? (fun b => decide (b.id = e.id)) = some e := by
    rw [heid]; exact hexp
  exact findExpense_save st.expenses e _ e.id hexp' rfl

/-- C3 — For every approve decision that satisfies neither the
specific-approver rule nor the percentage rule (the combined
`shouldApprove` flag is false on the post-decision counts), with
`capLevel = totalLevels` (3 when `approvalRules = percentage`, else
2): if the acting task's level is ≥ the cap, the expense is finalized
as approved (fallback) with `currentApprover = none` — never left
pending or stuck. -/
theorem c3_cap_level_fallback
    (st : State) (aid uid : Nat) (cm : Option String) (now : Nat)
    (a : Approval) (e : Expense) (c : Company)
    (hfind : findApproval st aid = some a)
    (happ : a.approver = uid)
    (hpend : a.status = .pending)
    (hexp : findExpense st a.expense = some e)
    (hcomp : findCompany st e.company = some c)
    (hflag : shouldApproveFlag c.settings uid
        (approvedCount (saveApproval st.approvals (savedActing a cm now)) e.id)
        (totalCount (saveApproval st.approvals (savedActing a cm now)) e.id) = false)
    (hcap : a.level ≥ totalLevels c.settings) :
    ∃ st', approveHandler st aid uid cm now = .ok st' ∧
      findExpense st' e.id = some { e with
        status := .approved, currentApprover := none,
        approvedBy := e.approvedBy ++ [ApprovalEvent.mk uid a.level now cm] } := by
  have heid : e.id = a.expense := findExpense_eq_id st a.expense e hexp
  unfold approveHandler
  simp only [hfind, happ, hpend, ne_eq, not_true_eq_false, if_false, hexp, hcomp, hflag,
    ite_false, ite_true, reduceIte]
  rw [if_pos hcap]
  refine ⟨_, rfl, ?_⟩
  show (saveExpense st.expenses _).find? _ = _
  have hexp' : st.expenses.find? (fun b => decide (b.id = e.id)) = some e := by
    rw [heid]; exact hexp
  exact findExpense_save st.expenses e _ e.id hexp' rfl

/-- C5 — For every reject decision on a pending approval task,
recorded by the task's designated approver with a non-empty rejection
reason: the task transitions to `rejected` with the reason recorded,
the expense becomes `rejected` unconditionally, `currentApprover`
becomes none, and exactly one entry (acting user, the task's level,
the timestamp, the reason) is appended to the expense's `rejectedBy`
history. -/
theorem c5_reject_is_final
    (st : State) (aid uid : Nat) (reason : String) (cm : Option String) (now : Nat)
    (a : Approval) (e : Expense)
    (hfind : findApproval st aid = some a)
    (happ : a.approver = uid)
    (hpend : a.status = .pending)
    (hexp : findExpense st a.expense = some e)
    (hreason : reason ≠ "") :
    ∃ st', rejectHandler st aid uid reason cm now = .ok st' ∧
      findApproval st' aid = some { a with
        status := .rejected, rejectionReason := some reason,
        comments := cm, approvedAt := some now } ∧
      findExpense st' e.id = some { e with
        status := .rejected, rejectionReason := some reason,
        currentApprover := none,
        rejectedBy := e.rejectedBy ++ [RejectionEvent.mk uid a.level now reason] } := by
  have heid : e.id = a.expense := findExpense_eq_id st a.expense e hexp
  unfold rejectHandler
  rw [if_neg hreason]
  simp only [hfind, happ, hpend, ne_eq, not_true_eq_false, if_false, hexp,
    ite_false, ite_true, reduceIte]
  refine ⟨_, rfl, ?_, ?_⟩
  · show (saveApproval st.approvals _).find? _ = _
    exact findApproval_save st.approvals a _ aid hfind rfl
  · show (saveExpense st.expenses _).find? _ = _
    have hexp' : st.expenses.find? (fun b => decide (b.id = e.id)) = some e := by
      rw [heid]; exact hexp
    exact findExpense_save st.expenses e _ e.id hexp' rfl

/-- C8 — For every decision request on an approval task: when the
acting user is not the task's designated approver, both handlers fail
with the 403 Unauthorized response; when the acting user is the
approver but the task is no longer pending, both fail with the 400
already-processed (conflict) response; the two responses carry
different status codes (hence are distinguishable by the caller), and
in every failure case the returned state is exactly the input state —
no record is modified. -/
theorem c8_guard_errors_distinguishable
    (st : State) (aid uidX w : Nat) (cm : Option String) (reason : String) (now : Nat)
    (a : Approval)
    (hfind : findApproval st aid = some a)
    (hreason : reason ≠ "") :
    (a.approver ≠ uidX →
      approveHandler st aid uidX cm now =
        .err 403 "You are not authorized to approve this expense" st ∧
      rejectHandler st aid uidX reason cm now =
        .err 403 "You are not authorized to reject this expense" st) ∧
    (a.approver = w → a.status ≠ .pending →
      approveHandler st aid w cm now =
        .err 400 "This approval has already been processed" st ∧
      rejectHandler st aid w reason cm now =
        .err 400 "This approval has already been processed" st) ∧
    (403 : Nat) ≠ 400 := by
  refine ⟨?_, ?_, by decide⟩
  · intro hne
    constructor
    · unfold approveHandler
      simp only [hfind]
      rw [if_pos hne]
    · unfold rejectHandler
      rw [if_neg hreason]
      simp only [hfind]
      rw [if_pos hne]
  · intro heq hst
    constructor
    · unfold approveHandler
      simp only [hfind, heq, ne_eq, not_true_eq_false, if_false, ite_false, reduceIte]
      rw [if_pos hst]
    · unfold rejectHandler
      rw [if_neg hreason]
      simp only [hfind, heq, ne_eq, not_true_eq_false, if_false, ite_false, reduceIte]
      rw [if_pos hst]

/-- C1, amended — With `approvalRules ∈ {percentage, hybrid}`, an
approve decision by a user who does not satisfy the specific-approver
rule, at a level below the cap and with a resolvable next approver:
the expense is finalized as approved (status `approved`,
`currentApprover = none`) iff
`approvedCount / totalCount * 100` is at least the *effective*
threshold — `percentageThreshold || 60`, which substitutes the default
60 for a configured 0 — over the tasks created so far (the acting one,
just saved, included; ties count as satisfied); otherwise it advances
to the next level instead.  The claim as frozen compares against
`percentageThreshold` itself, which the code contradicts at the
schema-allowed threshold 0 (see the counterexample below). -/
theorem c1_percentage_threshold_boundary
    (st : State) (aid uid : Nat) (cm : Option String) (now : Nat)
    (a : Approval) (e : Expense) (c : Company) (w : Nat)
    (hfind : findApproval st aid = some a)
    (happ : a.approver = uid)
    (hpend : a.status = .pending)
    (hexp : findExpense st a.expense = some e)
    (hcomp : findCompany st e.company = some c)
    (hrules : c.settings.approvalRules = .percentage ∨ c.settings.approvalRules = .hybrid)
    (hspec : specificRuleMet c.settings uid = false)
    (hlevel : a.level < totalLevels c.settings)
    (hres : resolveNextApprover st c e (a.level + 1) = some w) :
    ∃ st' e', approveHandler st aid uid cm now = .ok st' ∧
      findExpense st' e.id = some e' ∧
      ((e'.status = .approved ∧ e'.currentApprover = none) ↔
        percentageRuleMet c.settings
          (approvedCount (saveApproval st.approvals (savedActing a cm now)) e.id)
          (totalCount (saveApproval st.approvals (savedActing a cm now)) e.id) = true) ∧
      (percentageRuleMet c.settings
          (approvedCount (saveApproval st.approvals (savedActing a cm now)) e.id)
          (totalCount (saveApproval st.approvals (savedActing a cm now)) e.id) = false →
        e'.status = e.status ∧ e'.currentApprover = some w ∧
        e'.approvalLevel = a.level + 1) := by
  have heid : e.id = a.expense := findExpense_eq_id st a.expense e hexp
  have hexp' : st.expenses.find? (fun b => decide (b.id = e.id)) = some e := by
    rw [heid]; exact hexp
  have hflag := shouldApproveFlag_of_percentage c.settings uid
    (approvedCount (saveApproval st.approvals (savedActing a cm now)) e.id)
    (totalCount (saveApproval st.approvals (savedActing a cm now)) e.id) hspec hrules
  unfold approveHandler
  simp only [hfind, happ, hpend, ne_eq, not_true_eq_false, if_false, hexp, hcomp,
    ite_false, ite_true, reduceIte]
  cases hpm : percentageRuleMet c.settings
      (approvedCount (saveApproval st.approvals (savedActing a cm now)) e.id)
      (totalCount (saveApproval st.approvals (savedActing a cm now)) e.id) with
  | true =>
    rw [hflag, hpm]
    simp only [ite_true, reduceIte]
    refine ⟨_, _, rfl, findExpense_save st.expenses e _ e.id hexp' rfl, ?_, ?_⟩
    · simp
    · intro hcontra; simp at hcontra
  | false =>
    rw [hflag, hpm]
    simp only [ite_false, reduceIte]
    rw [if_neg (not_le.mpr hlevel)]
    rw [hres]
    refine ⟨_, _, rfl, findExpense_save st.expenses e _ e.id hexp' rfl, ?_, ?_⟩
    · simp
    · intro _
      exact ⟨rfl, rfl, rfl⟩

/-! ### C1: percentage boundary — counterexample fixture

Mode `hybrid` with `percentageThreshold = 0`, acting user 2 not in
`specificApprovers`, three tasks of which one is approved after the
decision, level 1 below the cap, a resolvable manager.  The claim's
condition `approvedCount / totalCount * 100 ≥ percentageThreshold`
holds (33.3 % ≥ 0), so the claim predicts finalization as approved;
the code's `|| 60` default makes the effective threshold 60, so it
advances instead. -/

def c1xc : Company := ⟨1, "USD", ⟨.hybrid, 0, [9]⟩⟩

def c1xe : Expense := ⟨1, 5, 1, 10, "USD", 10, 1, .pending, some 2, 1, none, [], []⟩

def c1xt : Approval := ⟨1, 1, 2, 1, .pending, none, none, none⟩

def c1xst : State :=
  ⟨[c1xc], [⟨2, 1, .manager, true, none⟩], [c1xe],
   [c1xt,
    ⟨2, 1, 3, 2, .pending, none, none, none⟩,
    ⟨3, 1, 4, 3, .pending, none, none, none⟩], 2, 4⟩

/-- C1, counterexample — In `c1xst` the mode is `hybrid` (∈
{percentage, hybrid}), user 2 does not satisfy the specific rule, the
post-decision counts are 1 approved of 3, and the ratio satisfies the
claim's comparison against the configured `percentageThreshold` (0):
`1/3·100 ≥ 0`.  The claim therefore predicts the expense is finalized
as approved with `currentApprover = none`; the approve decision
instead leaves it `pending` at level 2 with `currentApprover` the
manager 2 — the code compares against `percentageThreshold || 60`,
not against the configured 0. -/
theorem c1_threshold_counterexample :
    (c1xc.settings.approvalRules = .percentage ∨
      c1xc.settings.approvalRules = .hybrid) ∧
    specificRuleMet c1xc.settings 2 = false ∧
    c1xc.settings.percentageThreshold = 0 ∧
    approvedCount (saveApproval c1xst.approvals (savedActing c1xt none 0)) 1 = 1 ∧
    totalCount (saveApproval c1xst.approvals (savedActing c1xt none 0)) 1 = 3 ∧
    ((approvedCount (saveApproval c1xst.approvals (savedActing c1xt none 0)) 1 : ℚ) /
      (totalCount (saveApproval c1xst.approvals (savedActing c1xt none 0)) 1 : ℚ) * 100 ≥
      c1xc.settings.percentageThreshold) ∧
    ∃ st', approveHandler c1xst 1 2 none 0 = .ok st' ∧
      ∃ e', findExpense st' 1 = some e' ∧
        e'.status = .pending ∧ e'.currentApprover = some 2 := by
  have hsp : specificRuleMet c1xc.settings 2 = false := by decide
  have hpm : percentageRuleMet c1xc.settings 1 3 = false := by
    unfold percentageRuleMet effectiveThreshold
    rw [decide_eq_false_iff_not]
    norm_num [c1xc]
  have hflag : shouldApproveFlag c1xc.settings 2 1 3 = false := by
    unfold shouldApproveFlag
    rw [hsp]
    rw [if_neg (by simp),
      if_pos (Or.inr (show c1xc.settings.approvalRules = ApprovalRules.hybrid from rfl))]
    exact hpm
  have hflag2 : shouldApproveFlag c1xc.settings 2
      (approvedCount (saveApproval c1xst.approvals (savedActing c1xt none 0)) c1xe.id)
      (totalCount (saveApproval c1xst.approvals (savedActing c1xt none 0)) c1xe.id) =
      false := by
    rw [show approvedCount (saveApproval c1xst.approvals (savedActing c1xt none 0))
          c1xe.id = 1 from by decide,
      show totalCount (saveApproval c1xst.approvals (savedActing c1xt none 0))
          c1xe.id = 3 from by decide]
    exact hflag
  have hadv := approveHandler_eq_advance c1xst 1 2 none 0 c1xt c1xe c1xc 2
    rfl rfl rfl rfl rfl hflag2 (by decide) (by decide)
  refine ⟨Or.inr rfl, hsp, rfl, by decide, by decide, ?_, _, hadv,
    { c1xe with currentApprover := some 2, approvalLevel := c1xt.level + 1,
                approvedBy := c1xe.approvedBy ++ [ApprovalEvent.mk 2 c1xt.level 0 none] },
    by decide, rfl, rfl⟩
  rw [show approvedCount (saveApproval c1xst.approvals (savedActing c1xt none 0)) 1 = 1
      from by decide,
    show totalCount (saveApproval c1xst.approvals (savedActing c1xt none 0)) 1 = 3
      from by decide]
  norm_num [c1xc]

/-! ### C4: escalation resolution — counterexample fixture

Mode `specific` with an *empty* `specificApprovers` list, and the only
manager of the company inactive.  C4 as stated resolves the next
approver from the list entry at index `n-1` (absent here) — and even
on its default path would only accept an *active* manager — so it
predicts fallback finalization (`approved`, `currentApprover = none`).
The code's `length > 0` guard sends the empty-list case to the
`findOne` path, which does not filter on `isActive`, so the expense
advances to level 2 assigned to the inactive manager instead. -/

def c4c : Company := ⟨1, "USD", ⟨.specific, 50, []⟩⟩

def c4e : Expense := ⟨1, 5, 1, 10, "USD", 10, 1, .pending, some 2, 1, none, [], []⟩

def c4t : Approval := ⟨1, 1, 2, 1, .pending, none, none, none⟩

def c4st : State :=
  ⟨[c4c], [⟨3, 1, .manager, false, none⟩, ⟨2, 1, .admin, true, none⟩],
   [c4e], [c4t], 2, 2⟩

/-- C4, counterexample — In `c4st` the company mode is `specific`,
`specificApprovers` is empty (so the claimed resolution yields no
user), and every manager of the company is inactive (so even the
claimed default path yields no user); the claim therefore predicts the
expense is finalized as approved with `currentApprover = none`.  The
code instead advances: the result of the approve decision is a state
whose expense is still `pending` at level 2 with `currentApprover`
the inactive manager 3, and a new pending level-2 task for user 3. -/
theorem c4_resolution_counterexample :
    c4c.settings.approvalRules = .specific ∧
    c4c.settings.specificApprovers = [] ∧
    (∀ u ∈ c4st.users, u.role = .manager → u.isActive = false) ∧
    ∃ st', approveHandler c4st 1 2 none 0 = .ok st' ∧
      findExpense st' 1 = some { c4e with
        currentApprover := some 3, approvalLevel := 2,
        approvedBy := [ApprovalEvent.mk 2 1 0 none] } ∧
      findApproval st' 2 = some ⟨2, 1, 3, 2, .pending, none, none, none⟩ ∧
      (findUser c4st 3).map User.isActive = some false := by
  refine ⟨rfl, rfl, by decide, _, rfl, ?_, ?_, ?_⟩ <;> decide

/-- C4, amended — For every approve decision that satisfies
neither rule, at a level below the cap: the next approver is the entry
of `specificApprovers` at index `n-1` when `approvalRules = specific`
*and the list is non-empty*; otherwise the first user of the company
with role `manager` for `n = 2` and `admin` for any higher level,
*without filtering on the active flag* (this is `resolveNextApprover`,
the transcription of approvals.js lines 172–182).  When a user is
resolved, a new pending task at level `n` is created for them and the
expense's `currentApprover`/`approvalLevel` are updated (status
unchanged); when no user is resolved, the expense is finalized as
approved rather than raising an error. -/
theorem c4_advance_resolution_amended
    (st : State) (aid uid : Nat) (cm : Option String) (now : Nat)
    (a : Approval) (e : Expense) (c : Company)
    (hfind : findApproval st aid = some a)
    (happ : a.approver = uid)
    (hpend : a.status = .pending)
    (hexp : findExpense st a.expense = some e)
    (hcomp : findCompany st e.company = some c)
    (hflag : shouldApproveFlag c.settings uid
        (approvedCount (saveApproval st.approvals (savedActing a cm now)) e.id)
        (totalCount (saveApproval st.approvals (savedActing a cm now)) e.id) = false)
    (hlevel : a.level < totalLevels c.settings) :
    (∀ w, resolveNextApprover st c e (a.level + 1) = some w →
      ∃ st', approveHandler st aid uid cm now = .ok st' ∧
        (⟨st.nextApprovalId, e.id, w, a.level + 1, .pending, none, none, none⟩ :
          Approval) ∈ st'.approvals ∧
        findExpense st' e.id = some { e with
          currentApprover := some w, approvalLevel := a.level + 1,
          approvedBy := e.approvedBy ++ [ApprovalEvent.mk uid a.level now cm] }) ∧
    (resolveNextApprover st c e (a.level + 1) = none →
      ∃ st', approveHandler st aid uid cm now = .ok st' ∧
        findExpense st' e.id = some { e with
          status := .approved, currentApprover := none,
          approvedBy := e.approvedBy ++ [ApprovalEvent.mk uid a.level now cm] }) := by
  have heid : e.id = a.expense := findExpense_eq_id st a.expense e hexp
  have hexp' : st.expenses.find? (fun b => decide (b.id = e.id)) = some e := by
    rw [heid]; exact hexp
  constructor
  · intro w hres
    unfold approveHandler
    simp only [hfind, happ, hpend, ne_eq, not_true_eq_false, if_false, hexp, hcomp, hflag,
      ite_false, ite_true, reduceIte]
    rw [if_neg (not_le.mpr hlevel), hres]
    refine ⟨_, rfl, ?_, findExpense_save st.expenses e _ e.id hexp' rfl⟩
    exact List.mem_append_right _ (List.mem_singleton.mpr rfl)
  · intro hres
    unfold approveHandler
    simp only [hfind, happ, hpend, ne_eq, not_true_eq_false, if_false, hexp, hcomp, hflag,
      ite_false, ite_true, reduceIte]
    rw [if_neg (not_le.mpr hlevel), hres]
    exact ⟨_, rfl, findExpense_save st.expenses e _ e.id hexp' rfl⟩

/-! ### C9: zero threshold — counterexample fixture

`approvalRules = percentage` with `percentageThreshold = 0`: the JS
`percentageThreshold || 60` treats the falsy `0` as absent and
substitutes the default `60`, so the percentage rule is *not* always
satisfied. -/

def c9c : Company := ⟨1, "USD", ⟨.percentage, 0, []⟩⟩

def c9e : Expense := ⟨1, 5, 1, 10, "USD", 10, 1, .pending, some 2, 1, none, [], []⟩

def c9t0 : Approval := ⟨1, 1, 2, 1, .pending, none, none, none⟩

def c9st : State :=
  ⟨[c9c], [⟨2, 1, .manager, true, none⟩], [c9e],
   [c9t0,
    ⟨2, 1, 3, 2, .pending, none, none, none⟩,
    ⟨3, 1, 4, 3, .pending, none, none, none⟩], 2, 4⟩

/-- C9, counterexample — With `percentageThreshold = 0` the
percentage rule is *not* always satisfied: at 1 approved task out of 3
it evaluates to false (the `|| 60` default replaces the falsy `0`),
and the approve decision on `c9st` (threshold 0, three tasks, one
approval) leaves the expense `pending` at level 2 instead of
finalizing it as approved. -/
theorem c9_zero_threshold_counterexample :
    c9c.settings.percentageThreshold = 0 ∧
    c9c.settings.approvalRules = .percentage ∧
    percentageRuleMet c9c.settings 1 3 = false ∧
    approvedCount (saveApproval c9st.approvals (savedActing c9t0 none 0)) 1 = 1 ∧
    totalCount (saveApproval c9st.approvals (savedActing c9t0 none 0)) 1 = 3 ∧
    ∃ st', approveHandler c9st 1 2 none 0 = .ok st' ∧
      findExpense st' 1 = some { c9e with
        currentApprover := some 2, approvalLevel := 2,
        approvedBy := [ApprovalEvent.mk 2 1 0 none] } := by
  have hpm : percentageRuleMet c9c.settings 1 3 = false := by
    unfold percentageRuleMet effectiveThreshold
    rw [decide_eq_false_iff_not]
    norm_num [c9c]
  have hflag : shouldApproveFlag c9c.settings 2 1 3 = false := by
    unfold shouldApproveFlag
    rw [show specificRuleMet c9c.settings 2 = false from by decide]
    rw [if_neg (by simp),
      if_pos (Or.inl (show c9c.settings.approvalRules = ApprovalRules.percentage from rfl))]
    exact hpm
  have hflag' : shouldApproveFlag c9c.settings 2
      (approvedCount (saveApproval c9st.approvals (savedActing c9t0 none 0)) c9e.id)
      (totalCount (saveApproval c9st.approvals (savedActing c9t0 none 0)) c9e.id) = false := by
    rw [show approvedCount (saveApproval c9st.approvals (savedActing c9t0 none 0)) c9e.id = 1
        from by decide,
      show totalCount (saveApproval c9st.approvals (savedActing c9t0 none 0)) c9e.id = 3
        from by decide]
    exact hflag
  have hadv := approveHandler_eq_advance c9st 1 2 none 0 c9t0 c9e c9c 2
    rfl rfl rfl rfl rfl hflag' (by decide) (by decide)
  refine ⟨rfl, rfl, hpm, by decide, by decide, _, hadv, by decide⟩

/-- C9, amended — When `percentageThreshold` is 0, the effective
threshold is the default 60 (JS `||` on a falsy number), so step 2 of
the evaluator is satisfied iff `approvedCount / totalCount * 100 ≥
60`; in particular a sole first approval (1 of 1, i.e. 100 %) still
finalizes immediately, but smaller ratios do not. -/
theorem c9_zero_threshold_amended (s : CompanySettings) (ac tc : Nat)
    (h0 : s.percentageThreshold = 0) :
    percentageRuleMet s ac tc = true ↔
      (ac : ℚ) / (tc : ℚ) * 100 ≥ 60 := by
  unfold percentageRuleMet effectiveThreshold
  rw [h0]
  simp

/-- C10 — Frame property of the two decision handlers.  A
successful approve call leaves users and companies untouched, changes
the stored tasks only by saving the acting task (updated exactly in
status / comments / decision timestamp) and appending at most one new
task (pending, belonging to the same expense), and rewrites the
expense only in its workflow fields (`status`, `currentApprover`,
`approvalLevel`) and its `approvedBy` history (exactly one entry
appended) — its identity and monetary fields and its `rejectedBy`
history are untouched.  A successful reject call symmetrically saves
only the acting task, creates no task, and rewrites the expense only
in `status`, `rejectionReason`, `currentApprover` and `rejectedBy`
(one entry appended), leaving `approvedBy` and the monetary fields
unchanged. -/
theorem c10_decision_frame
    (st : State) (aid uid : Nat) (cm : Option String) (reason : String) (now : Nat)
    (a : Approval) (e : Expense) (c : Company)
    (hfind : findApproval st aid = some a)
    (happ : a.approver = uid)
    (hpend : a.status = .pending)
    (hexp : findExpense st a.expense = some e)
    (hcomp : findCompany st e.company = some c)
    (hreason : reason ≠ "") :
    (∃ st', approveHandler st aid uid cm now = .ok st' ∧
      st'.users = st.users ∧ st'.companies = st.companies ∧
      (st'.approvals = saveApproval st.approvals (savedActing a cm now) ∨
       ∃ t, st'.approvals = saveApproval st.approvals (savedActing a cm now) ++ [t] ∧
         t.expense = e.id ∧ t.status = .pending) ∧
      ∃ e', st'.expenses = saveExpense st.expenses e' ∧
        e' = { e with status := e'.status, currentApprover := e'.currentApprover,
                      approvalLevel := e'.approvalLevel, approvedBy := e'.approvedBy } ∧
        e'.approvedBy = e.approvedBy ++ [ApprovalEvent.mk uid a.level now cm] ∧
        e'.rejectedBy = e.rejectedBy) ∧
    (∃ st', rejectHandler st aid uid reason cm now = .ok st' ∧
      st'.users = st.users ∧ st'.companies = st.companies ∧
      st'.approvals = saveApproval st.approvals { a with
        status := .rejected, rejectionReason := some reason,
        comments := cm, approvedAt := some now } ∧
      st'.expenses = saveExpense st.expenses { e with
        status := .rejected, rejectionReason := some reason,
        currentApprover := none,
        rejectedBy := e.rejectedBy ++ [RejectionEvent.mk uid a.level now reason] }) := by
  constructor
  · cases hflag : shouldApproveFlag c.settings uid
        (approvedCount (saveApproval st.approvals (savedActing a cm now)) e.id)
        (totalCount (saveApproval st.approvals (savedActing a cm now)) e.id) with
    | true =>
      exact ⟨_, approveHandler_eq_final st aid uid cm now a e c
        hfind happ hpend hexp hcomp hflag,
        rfl, rfl, Or.inl rfl, ⟨_, rfl, rfl, rfl, rfl⟩⟩
    | false =>
      by_cases hcap : a.level ≥ totalLevels c.settings
      · exact ⟨_, approveHandler_eq_cap st aid uid cm now a e c
          hfind happ hpend hexp hcomp hflag hcap,
          rfl, rfl, Or.inl rfl, ⟨_, rfl, rfl, rfl, rfl⟩⟩
      · cases hres : resolveNextApprover st c e (a.level + 1) with
        | some w =>
          exact ⟨_, approveHandler_eq_advance st aid uid cm now a e c w
            hfind happ hpend hexp hcomp hflag (not_le.mp hcap) hres,
            rfl, rfl, Or.inr ⟨_, rfl, rfl, rfl⟩, ⟨_, rfl, rfl, rfl, rfl⟩⟩
        | none =>
          exact ⟨_, approveHandler_eq_noapprover st aid uid cm now a e c
            hfind happ hpend hexp hcomp hflag (not_le.mp hcap) hres,
            rfl, rfl, Or.inl rfl, ⟨_, rfl, rfl, rfl, rfl⟩⟩
  · exact ⟨_, rejectHandler_eq_ok st aid uid reason cm now a e
      hreason hfind happ hpend hexp, rfl, rfl, rfl, rfl⟩

/-! ### Witness fixtures and witnesses -/

def c2c : Company := ⟨1, "USD", ⟨.specific, 60, [2]⟩⟩

def c2e : Expense := ⟨1, 5, 1, 10, "USD", 10, 1, .pending, some 2, 1, none, [], []⟩

def c2t : Approval := ⟨1, 1, 2, 1, .pending, none, none, none⟩

def c2st : State := ⟨[c2c], [⟨2, 1, .manager, true, none⟩], [c2e], [c2t], 2, 2⟩

/-- Witness for C2 at a concrete state: mode `specific`, acting user 2
listed in `specificApprovers`. -/
theorem c2_specific_approver_short_circuit_witness :
    (findApproval c2st 1 = some c2t ∧ c2t.approver = 2 ∧ c2t.status = .pending ∧
     findExpense c2st c2t.expense = some c2e ∧ findCompany c2st c2e.company = some c2c ∧
     (c2c.settings.approvalRules = .specific ∨ c2c.settings.approvalRules = .hybrid) ∧
     2 ∈ c2c.settings.specificApprovers) ∧
    (∃ st', approveHandler c2st 1 2 none 7 = .ok st' ∧
      findExpense st' c2e.id = some { c2e with
        status := .approved, currentApprover := none,
        approvedBy := c2e.approvedBy ++ [ApprovalEvent.mk 2 c2t.level 7 none] }) :=
  ⟨⟨rfl, rfl, rfl, rfl, rfl, Or.inl rfl, by decide⟩,
   c2_specific_approver_short_circuit c2st 1 2 none 7 c2t c2e c2c rfl rfl rfl rfl rfl
     (Or.inl rfl) (by decide)⟩

def c1c : Company := ⟨1, "USD", ⟨.percentage, 60, []⟩⟩

def c1e : Expense := ⟨1, 5, 1, 10, "USD", 10, 1, .pending, some 2, 2, none, [], []⟩

def c1t : Approval := ⟨2, 1, 2, 2, .pending, none, none, none⟩

def c1st : State :=
  ⟨[c1c], [⟨7, 1, .admin, true, none⟩, ⟨2, 1, .manager, true, none⟩], [c1e],
   [⟨1, 1, 4, 1, .approved, none, none, some 0⟩, c1t,
    ⟨3, 1, 9, 3, .pending, none, none, none⟩], 2, 4⟩

/-- Witness for the amended C1 at a concrete state: mode `percentage`,
threshold 60 (where the effective threshold coincides with the
configured one), three tasks of which two are approved after the
acting decision (the boundary scenario of the claim). -/
theorem c1_percentage_threshold_boundary_witness :
    (findApproval c1st 2 = some c1t ∧ c1t.approver = 2 ∧ c1t.status = .pending ∧
     findExpense c1st c1t.expense = some c1e ∧ findCompany c1st c1e.company = some c1c ∧
     (c1c.settings.approvalRules = .percentage ∨ c1c.settings.approvalRules = .hybrid) ∧
     specificRuleMet c1c.settings 2 = false ∧
     c1t.level < totalLevels c1c.settings ∧
     resolveNextApprover c1st c1c c1e (c1t.level + 1) = some 7) ∧
    (∃ st' e', approveHandler c1st 2 2 none 7 = .ok st' ∧
      findExpense st' c1e.id = some e' ∧
      ((e'.status = .approved ∧ e'.currentApprover = none) ↔
        percentageRuleMet c1c.settings
          (approvedCount (saveApproval c1st.approvals (savedActing c1t none 7)) c1e.id)
          (totalCount (saveApproval c1st.approvals (savedActing c1t none 7)) c1e.id) = true) ∧
      (percentageRuleMet c1c.settings
          (approvedCount (saveApproval c1st.approvals (savedActing c1t none 7)) c1e.id)
          (totalCount (saveApproval c1st.approvals (savedActing c1t none 7)) c1e.id) = false →
        e'.status = c1e.status ∧ e'.currentApprover = some 7 ∧
        e'.approvalLevel = c1t.level + 1)) :=
  ⟨⟨rfl, rfl, rfl, rfl, rfl, Or.inl rfl, by decide, by decide, by decide⟩,
   c1_percentage_threshold_boundary c1st 2 2 none 7 c1t c1e c1c 7 rfl rfl rfl rfl rfl
     (Or.inl rfl) (by decide) (by decide) (by decide)⟩

def c3c : Company := ⟨1, "USD", ⟨.hybrid, 80, [9]⟩⟩

def c3e : Expense := ⟨1, 5, 1, 10, "USD", 10, 1, .pending, some 2, 2, none, [], []⟩

def c3t : Approval := ⟨2, 1, 2, 2, .pending, none, none, none⟩

def c3st : State :=
  ⟨[c3c], [⟨2, 1, .manager, true, none⟩], [c3e],
   [⟨1, 1, 4, 1, .approved, none, none, some 0⟩, c3t,
    ⟨3, 1, 9, 3, .pending, none, none, none⟩], 2, 4⟩

/-- Witness for C3 at a concrete state: mode `hybrid` (cap level 2),
acting approval at level 2, neither rule satisfied (66.7 % < 80 and
user 2 not a specific approver) — still finalized approved. -/
theorem c3_cap_level_fallback_witness :
    (findApproval c3st 2 = some c3t ∧ c3t.approver = 2 ∧ c3t.status = .pending ∧
     findExpense c3st c3t.expense = some c3e ∧ findCompany c3st c3e.company = some c3c ∧
     shouldApproveFlag c3c.settings 2
       (approvedCount (saveApproval c3st.approvals (savedActing c3t none 7)) c3e.id)
       (totalCount (saveApproval c3st.approvals (savedActing c3t none 7)) c3e.id) = false ∧
     c3t.level ≥ totalLevels c3c.settings) ∧
    (∃ st', approveHandler c3st 2 2 none 7 = .ok st' ∧
      findExpense st' c3e.id = some { c3e with
        status := .approved, currentApprover := none,
        approvedBy := c3e.approvedBy ++ [ApprovalEvent.mk 2 c3t.level 7 none] }) := by
  have hpm : percentageRuleMet c3c.settings 2 3 = false := by
    unfold percentageRuleMet effectiveThreshold
    rw [decide_eq_false_iff_not]
    norm_num [c3c]
  have hflag : shouldApproveFlag c3c.settings 2 2 3 = false := by
    unfold shouldApproveFlag
    rw [show specificRuleMet c3c.settings 2 = false from by decide]
    rw [if_neg (by simp),
      if_pos (Or.inr (show c3c.settings.approvalRules = ApprovalRules.hybrid from rfl))]
    exact hpm
  have hflag' : shouldApproveFlag c3c.settings 2
      (approvedCount (saveApproval c3st.approvals (savedActing c3t none 7)) c3e.id)
      (totalCount (saveApproval c3st.approvals (savedActing c3t none 7)) c3e.id) = false := by
    rw [show approvedCount (saveApproval c3st.approvals (savedActing c3t none 7)) c3e.id = 2
        from by decide,
      show totalCount (saveApproval c3st.approvals (savedActing c3t none 7)) c3e.id = 3
        from by decide]
    exact hflag
  exact ⟨⟨rfl, rfl, rfl, rfl, rfl, hflag', by decide⟩,
    c3_cap_level_fallback c3st 2 2 none 7 c3t c3e c3c rfl rfl rfl rfl rfl hflag' (by decide)⟩

def c4wc : Company := ⟨1, "USD", ⟨.specific, 50, [9, 8]⟩⟩

def c4we : Expense := ⟨1, 5, 1, 10, "USD", 10, 1, .pending, some 2, 1, none, [], []⟩

def c4wt : Approval := ⟨1, 1, 2, 1, .pending, none, none, none⟩

def c4wst : State := ⟨[c4wc], [⟨2, 1, .manager, true, none⟩], [c4we], [c4wt], 2, 2⟩

/-- Witness for the amended C4 at a concrete state: mode `specific`
with a non-empty list — the level-2 approver is the list entry at
index 1 (user 8), a new pending level-2 task is created for them, and
the expense advances. -/
theorem c4_advance_resolution_amended_witness :
    (findApproval c4wst 1 = some c4wt ∧ c4wt.approver = 2 ∧ c4wt.status = .pending ∧
     findExpense c4wst c4wt.expense = some c4we ∧
     findCompany c4wst c4we.company = some c4wc ∧
     shouldApproveFlag c4wc.settings 2
       (approvedCount (saveApproval c4wst.approvals (savedActing c4wt none 7)) c4we.id)
       (totalCount (saveApproval c4wst.approvals (savedActing c4wt none 7)) c4we.id) = false ∧
     c4wt.level < totalLevels c4wc.settings ∧
     resolveNextApprover c4wst c4wc c4we (c4wt.level + 1) = some 8) ∧
    ((∀ w, resolveNextApprover c4wst c4wc c4we (c4wt.level + 1) = some w →
      ∃ st', approveHandler c4wst 1 2 none 7 = .ok st' ∧
        (⟨c4wst.nextApprovalId, c4we.id, w, c4wt.level + 1, .pending, none, none, none⟩ :
          Approval) ∈ st'.approvals ∧
        findExpense st' c4we.id = some { c4we with
          currentApprover := some w, approvalLevel := c4wt.level + 1,
          approvedBy := c4we.approvedBy ++ [ApprovalEvent.mk 2 c4wt.level 7 none] }) ∧
     (resolveNextApprover c4wst c4wc c4we (c4wt.level + 1) = none →
      ∃ st', approveHandler c4wst 1 2 none 7 = .ok st' ∧
        findExpense st' c4we.id = some { c4we with
          status := .approved, currentApprover := none,
          approvedBy := c4we.approvedBy ++ [ApprovalEvent.mk 2 c4wt.level 7 none] })) :=
  ⟨⟨rfl, rfl, rfl, rfl, rfl, by decide, by decide, by decide⟩,
   c4_advance_resolution_amended c4wst 1 2 none 7 c4wt c4we c4wc rfl rfl rfl rfl rfl
     (by decide) (by decide)⟩

def c5e : Expense := ⟨1, 5, 1, 10, "USD", 10, 1, .pending, some 2, 1, none, [], []⟩

def c5t : Approval := ⟨1, 1, 2, 1, .pending, none, none, none⟩

def c5st : State :=
  ⟨[⟨1, "USD", ⟨.percentage, 60, []⟩⟩], [⟨2, 1, .manager, true, none⟩],
   [c5e], [c5t], 2, 2⟩

/-- Witness for C5 at a concrete state: user 2 rejects the pending
level-1 task with reason "no". -/
theorem c5_reject_is_final_witness :
    (findApproval c5st 1 = some c5t ∧ c5t.approver = 2 ∧ c5t.status = .pending ∧
     findExpense c5st c5t.expense = some c5e ∧ ("no" : String) ≠ "") ∧
    (∃ st', rejectHandler c5st 1 2 "no" none 7 = .ok st' ∧
      findApproval st' 1 = some { c5t with
        status := .rejected, rejectionReason := some "no",
        comments := none, approvedAt := some 7 } ∧
      findExpense st' c5e.id = some { c5e with
        status := .rejected, rejectionReason := some "no",
        currentApprover := none,
        rejectedBy := c5e.rejectedBy ++ [RejectionEvent.mk 2 c5t.level 7 "no"] }) :=
  ⟨⟨rfl, rfl, rfl, rfl, by decide⟩,
   c5_reject_is_final c5st 1 2 "no" none 7 c5t c5e rfl rfl rfl rfl (by decide)⟩

def c8t : Approval := ⟨1, 1, 2, 1, .approved, none, none, some 0⟩

def c8st : State :=
  ⟨[⟨1, "USD", ⟨.percentage, 60, []⟩⟩], [⟨2, 1, .manager, true, none⟩],
   [⟨1, 5, 1, 10, "USD", 10, 1, .approved, none, 1, none, [], []⟩], [c8t], 2, 2⟩

/-- Witness for C8 at a concrete state: user 9 is not the approver of
task 1 (403 on both calls), and the approver 2 retrying the
already-approved task gets 400 on both calls; the state is unchanged
in all four cases. -/
theorem c8_guard_errors_distinguishable_witness :
    (findApproval c8st 1 = some c8t ∧ ("r" : String) ≠ "") ∧
    ((c8t.approver ≠ 9 →
      approveHandler c8st 1 9 none 0 =
        .err 403 "You are not authorized to approve this expense" c8st ∧
      rejectHandler c8st 1 9 "r" none 0 =
        .err 403 "You are not authorized to reject this expense" c8st) ∧
     (c8t.approver = 2 → c8t.status ≠ .pending →
      approveHandler c8st 1 2 none 0 =
        .err 400 "This approval has already been processed" c8st ∧
      rejectHandler c8st 1 2 "r" none 0 =
        .err 400 "This approval has already been processed" c8st) ∧
     (403 : Nat) ≠ 400) :=
  ⟨⟨rfl, by decide⟩,
   c8_guard_errors_distinguishable c8st 1 9 2 none "r" 0 c8t rfl (by decide)⟩

/-- Witness for the amended C9: `c9c` has threshold 0, and the rule at
2 approved of 3 total is equivalent to `2/3·100 ≥ 60`. -/
theorem c9_zero_threshold_amended_witness :
    c9c.settings.percentageThreshold = 0 ∧
    (percentageRuleMet c9c.settings 2 3 = true ↔
      ((2 : ℕ) : ℚ) / ((3 : ℕ) : ℚ) * 100 ≥ 60) :=
  ⟨rfl, c9_zero_threshold_amended c9c.settings 2 3 rfl⟩

/-- Witness for C10 at a concrete state (the `c2st` fixture), covering
both the approve frame and the reject frame. -/
theorem c10_decision_frame_witness :
    (findApproval c2st 1 = some c2t ∧ c2t.approver = 2 ∧ c2t.status = .pending ∧
     findExpense c2st c2t.expense = some c2e ∧ findCompany c2st c2e.company = some c2c ∧
     ("r" : String) ≠ "") ∧
    ((∃ st', approveHandler c2st 1 2 none 7 = .ok st' ∧
      st'.users = c2st.users ∧ st'.companies = c2st.companies ∧
      (st'.approvals = saveApproval c2st.approvals (savedActing c2t none 7) ∨
       ∃ t, st'.approvals = saveApproval c2st.approvals (savedActing c2t none 7) ++ [t] ∧
         t.expense = c2e.id ∧ t.status = .pending) ∧
      ∃ e', st'.expenses = saveExpense c2st.expenses e' ∧
        e' = { c2e with status := e'.status, currentApprover := e'.currentApprover,
                        approvalLevel := e'.approvalLevel, approvedBy := e'.approvedBy } ∧
        e'.approvedBy = c2e.approvedBy ++ [ApprovalEvent.mk 2 c2t.level 7 none] ∧
        e'.rejectedBy = c2e.rejectedBy) ∧
     (∃ st', rejectHandler c2st 1 2 "r" none 7 = .ok st' ∧
      st'.users = c2st.users ∧ st'.companies = c2st.companies ∧
      st'.approvals = saveApproval c2st.approvals { c2t with
        status := .rejected, rejectionReason := some "r",
        comments := none, approvedAt := some 7 } ∧
      st'.expenses = saveExpense c2st.expenses { c2e with
        status := .rejected, rejectionReason := some "r",
        currentApprover := none,
        rejectedBy := c2e.rejectedBy ++ [RejectionEvent.mk 2 c2t.level 7 "r"] })) :=
  ⟨⟨rfl, rfl, rfl, rfl, rfl, by decide⟩,
   c10_decision_frame c2st 1 2 none "r" 7 c2t c2e c2c rfl rfl rfl rfl rfl (by decide)⟩

/-! ### Result-state shapes of the success paths, and inversion -/

/-- State after an approve decision that finalizes the expense
(rule met, cap fallback, or no next approver — all three identical). -/
def finalState (st : State) (a : Approval) (e : Expense)
    (cm : Option String) (now uid : Nat) : State :=
  { st with
    approvals := saveApproval st.approvals (savedActing a cm now),
    expenses := saveExpense st.expenses { e with
      status := .approved, currentApprover := none,
      approvedBy := e.approvedBy ++ [ApprovalEvent.mk uid a.level now cm] } }

/-- State after an approve decision that advances to the next level
with resolved approver `w`. -/
def advanceState (st : State) (a : Approval) (e : Expense)
    (cm : Option String) (now uid w : Nat) : State :=
  { st with
    approvals := saveApproval st.approvals (savedActing a cm now) ++
      [⟨st.nextApprovalId, e.id, w, a.level + 1, .pending, none, none, none⟩],
    expenses := saveExpense st.expenses { e with
      currentApprover := some w, approvalLevel := a.level + 1,
      approvedBy := e.approvedBy ++ [ApprovalEvent.mk uid a.level now cm] },
    nextApprovalId := st.nextApprovalId + 1 }

/-- State after a successful reject decision. -/
def rejectedState (st : State) (a : Approval) (e : Expense)
    (reason : String) (cm : Option String) (now uid : Nat) : State :=
  { st with
    approvals := saveApproval st.approvals { a with
      status := .rejected, rejectionReason := some reason,
      comments := cm, approvedAt := some now },
    expenses := saveExpense st.expenses { e with
      status := .rejected, rejectionReason := some reason,
      currentApprover := none,
      rejectedBy := e.rejectedBy ++ [RejectionEvent.mk uid a.level now reason] } }

/-- The freshly created expense record of a submit call. -/
def newExpense (st : State) (u : User) (amount : ℚ) (currency : String)
    (rate : ℚ) : Expense :=
  { id := st.nextExpenseId, employee := u.id, company := u.company,
    amount := amount, currency := currency,
    convertedAmount := amount * rate, exchangeRate := rate,
    status := .pending, currentApprover := none, approvalLevel := 1,
    rejectionReason := none, approvedBy := [], rejectedBy := [] }

/-- State after a submit whose employee has no resolvable manager:
the expense is stored pending with no approver and no task. -/
def submitStalledState (st : State) (u : User) (amount : ℚ) (currency : String)
    (rate : ℚ) : State :=
  { st with expenses := st.expenses ++ [newExpense st u amount currency rate],
            nextExpenseId := st.nextExpenseId + 1 }

/-- State after a submit with a resolved manager: the expense is
stored with the manager as `currentApprover` and a pending level-1
task. -/
def submitAssignedState (st : State) (u : User) (amount : ℚ) (currency : String)
    (rate : ℚ) (m : User) : State :=
  { st with
    expenses := saveExpense (st.expenses ++ [newExpense st u amount currency rate])
      { newExpense st u amount currency rate with currentApprover := some m.id },
    approvals := st.approvals ++
      [⟨st.nextApprovalId, st.nextExpenseId, m.id, 1, .pending, none, none, none⟩],
    nextExpenseId := st.nextExpenseId + 1,
    nextApprovalId := st.nextApprovalId + 1 }

/-- Inversion of a successful approve: the preconditions held and the
result is the finalized shape or the advanced shape. -/
theorem approveHandler_ok_inversion (st : State) (aid uid : Nat)
    (cm : Option String) (now : Nat) (st' : State)
    (h : approveHandler st aid uid cm now = .ok st') :
    ∃ a e c, findApproval st aid = some a ∧ a.approver = uid ∧
      a.status = .pending ∧ findExpense st a.expense = some e ∧
      findCompany st e.company = some c ∧
      (st' = finalState st a e cm now uid ∨
       (∃ w, resolveNextApprover st c e (a.level + 1) = some w ∧
         a.level < totalLevels c.settings ∧
         st' = advanceState st a e cm now uid w)) := by
  unfold approveHandler at h
  rcases hfind : findApproval st aid with _ | a
  · rw [hfind] at h; simp at h
  rw [hfind] at h
  simp only [] at h
  by_cases happ : a.approver ≠ uid
  · rw [if_pos happ] at h; simp at h
  rw [if_neg happ] at h
  rw [not_ne_iff] at happ
  by_cases hpend : a.status ≠ .pending
  · rw [if_pos hpend] at h; simp at h
  rw [if_neg hpend] at h
  rw [not_ne_iff] at hpend
  rcases hexp : findExpense st a.expense with _ | e
  · rw [hexp] at h; simp at h
  rw [hexp] at h
  simp only [] at h
  rcases hcomp : findCompany st e.company with _ | c
  · rw [hcomp] at h; simp at h
  rw [hcomp] at h
  simp only [] at h
  refine ⟨a, e, c, rfl, happ, hpend, hexp, hcomp, ?_⟩
  by_cases hflag : shouldApproveFlag c.settings uid
      (approvedCount (saveApproval st.approvals (savedActing a cm now)) e.id)
      (totalCount (saveApproval st.approvals (savedActing a cm now)) e.id) = true
  · rw [if_pos hflag] at h
    exact Or.inl (HResult.ok.inj h).symm
  · rw [if_neg hflag] at h
    by_cases hcap : a.level ≥ totalLevels c.settings
    · rw [if_pos hcap] at h
      exact Or.inl (HResult.ok.inj h).symm
    · rw [if_neg hcap] at h
      rcases hres : resolveNextApprover st c e (a.level + 1) with _ | w
      · rw [hres] at h
        exact Or.inl (HResult.ok.inj h).symm
      · rw [hres] at h
        exact Or.inr ⟨w, rfl, not_le.mp hcap, (HResult.ok.inj h).symm⟩

/-- Inversion of a successful reject. -/
theorem rejectHandler_ok_inversion (st : State) (aid uid : Nat)
    (reason : String) (cm : Option String) (now : Nat) (st' : State)
    (h : rejectHandler st aid uid reason cm now = .ok st') :
    ∃ a e, findApproval st aid = some a ∧ a.approver = uid ∧
      a.status = .pending ∧ findExpense st a.expense = some e ∧
      st' = rejectedState st a e reason cm now uid := by
  unfold rejectHandler at h
  by_cases hr : reason = ""
  · rw [if_pos hr] at h; simp at h
  rw [if_neg hr] at h
  rcases hfind : findApproval st aid with _ | a
  · rw [hfind] at h; simp at h
  rw [hfind] at h
  simp only [] at h
  by_cases happ : a.approver ≠ uid
  · rw [if_pos happ] at h; simp at h
  rw [if_neg happ] at h
  rw [not_ne_iff] at happ
  by_cases hpend : a.status ≠ .pending
  · rw [if_pos hpend] at h; simp at h
  rw [if_neg hpend] at h
  rw [not_ne_iff] at hpend
  rcases hexp : findExpense st a.expense with _ | e
  · rw [hexp] at h; simp at h
  rw [hexp] at h
  simp only [] at h
  exact ⟨a, e, rfl, happ, hpend, hexp, (HResult.ok.inj h).symm⟩

/-- Inversion of a successful submit. -/
theorem submitExpense_ok_inversion (st : State) (uid : Nat) (amount : ℚ)
    (currency : String) (rate : ℚ) (st' : State)
    (h : submitExpense st uid amount currency rate = .ok st') :
    ∃ u, authUser st uid = some u ∧
      (st' = submitStalledState st u amount currency rate ∨
       ∃ m, u.manager.bind (fun mid => findUser st mid) = some m ∧
         st' = submitAssignedState st u amount currency rate m) := by
  unfold submitExpense at h
  rcases hauth : authUser st uid with _ | u
  · rw [hauth] at h; simp at h
  rw [hauth] at h
  simp only [] at h
  rcases hcomp : findCompany st u.company with _ | c
  · rw [hcomp] at h; simp at h
  rw [hcomp] at h
  simp only [] at h
  refine ⟨u, rfl, ?_⟩
  rcases hmgr : u.manager.bind (fun mid => findUser st mid) with _ | m
  · rw [hmgr] at h
    exact Or.inl (HResult.ok.inj h).symm
  · rw [hmgr] at h
    exact Or.inr ⟨m, rfl, (HResult.ok.inj h).symm⟩

/-- A successful approve route call is a successful handler call. -/
theorem approveRoute_ok_inversion (st : State) (uid aid : Nat)
    (cm : Option String) (now : Nat) (st' : State)
    (h : approveRoute st uid aid cm now = .ok st') :
    ∃ v, approveHandler st aid v cm now = .ok st' := by
  unfold approveRoute at h
  rcases hauth : authUser st uid with _ | u
  · rw [hauth] at h; simp at h
  rw [hauth] at h
  simp only [] at h
  by_cases hrole : u.role = .manager ∨ u.role = .admin
  · rw [if_pos hrole] at h; exact ⟨u.id, h⟩
  · rw [if_neg hrole] at h; simp at h

/-- A successful reject route call is a successful handler call. -/
theorem rejectRoute_ok_inversion (st : State) (uid aid : Nat)
    (reason : String) (cm : Option String) (now : Nat) (st' : State)
    (h : rejectRoute st uid aid reason cm now = .ok st') :
    ∃ v, rejectHandler st aid v reason cm now = .ok st' := by
  unfold rejectRoute at h
  rcases hauth : authUser st uid with _ | u
  · rw [hauth] at h; simp at h
  rw [hauth] at h
  simp only [] at h
  by_cases hrole : u.role = .manager ∨ u.role = .admin
  · rw [if_pos hrole] at h; exact ⟨u.id, h⟩
  · rw [if_neg hrole] at h; simp at h

/-! ### The reachability invariant -/

/-- The pending tasks of a task list. -/
def pendingTasks (l : List Approval) : List Approval :=
  l.filter (fun a => decide (a.status = .pending))

/-- Status/approver consistency of one expense: the spec's dichotomy,
plus the stalled case produced by a submit with no resolvable manager
(pending, no approver, and no task ever created). -/
def statusConsistent (approvals : List Approval) (e : Expense) : Prop :=
  ((e.status = .pending ∨ e.status = .partiallyApproved) ∧ e.currentApprover ≠ none) ∨
  ((e.status = .approved ∨ e.status = .rejected) ∧ e.currentApprover = none) ∨
  (e.status = .pending ∧ e.currentApprover = none ∧ approvalsFor approvals e.id = [])

/-- Per-expense task-set consistency. -/
def expenseOk (approvals : List Approval) (e : Expense) : Prop :=
  statusConsistent approvals e ∧
  (pendingTasks (approvalsFor approvals e.id)).length ≤ 1 ∧
  ((approvalsFor approvals e.id).map Approval.level).Nodup ∧
  (∀ a ∈ approvalsFor approvals e.id, a.status = .pending →
    ∀ b ∈ approvalsFor approvals e.id, b.level ≤ a.level) ∧
  ((e.status = .approved ∨ e.status = .rejected) →
    pendingTasks (approvalsFor approvals e.id) = [])

/-- The state invariant maintained by every engine operation. -/
def Inv (st : State) : Prop :=
  (∀ e ∈ st.expenses, e.id < st.nextExpenseId) ∧
  (st.expenses.map Expense.id).Nodup ∧
  (∀ a ∈ st.approvals, a.id < st.nextApprovalId) ∧
  (st.approvals.map Approval.id).Nodup ∧
  (∀ a ∈ st.approvals, ∃ e ∈ st.expenses, e.id = a.expense) ∧
  (∀ e ∈ st.expenses, expenseOk st.approvals e)

/-- Two members of a list with nodup keys and equal keys are equal. -/
theorem approval_key_inj {l : List Approval} (hnd : (l.map Approval.id).Nodup)
    {x y : Approval} (hx : x ∈ l) (hy : y ∈ l) (h : x.id = y.id) : x = y :=
  List.inj_on_of_nodup_map hnd hx hy h

/-- Two members of a list with nodup keys and equal keys are equal. -/
theorem expense_key_inj {l : List Expense} (hnd : (l.map Expense.id).Nodup)
    {x y : Expense} (hx : x ∈ l) (hy : y ∈ l) (h : x.id = y.id) : x = y :=
  List.inj_on_of_nodup_map hnd hx hy h

/-- Saving a task preserves the list of ids. -/
theorem saveApproval_map_id (l : List Approval) (a' : Approval) :
    (saveApproval l a').map Approval.id = l.map Approval.id := by
  unfold saveApproval
  rw [List.map_map]
  exact List.map_congr_left (fun b _ => by by_cases h : b.id = a'.id <;> simp [h])

/-- Saving an expense preserves the list of ids. -/
theorem saveExpense_map_id (l : List Expense) (e' : Expense) :
    (saveExpense l e').map Expense.id = l.map Expense.id := by
  unfold saveExpense
  rw [List.map_map]
  exact List.map_congr_left (fun b _ => by by_cases h : b.id = e'.id <;> simp [h])

/-- A predicate on ids transfers across `saveApproval`. -/
theorem saveApproval_forall_id (l : List Approval) (a' : Approval)
    (P : Nat → Prop) (h : ∀ b ∈ l, P b.id) :
    ∀ x ∈ saveApproval l a', P x.id := by
  intro x hx
  obtain ⟨b, hb, rfl⟩ := List.mem_map.mp hx
  by_cases hid : b.id = a'.id
  · simpa [hid] using h b hb
  · simpa [hid] using h b hb

/-- A predicate on ids transfers across `saveExpense`. -/
theorem saveExpense_forall_id (l : List Expense) (e' : Expense)
    (P : Nat → Prop) (h : ∀ b ∈ l, P b.id) :
    ∀ x ∈ saveExpense l e', P x.id := by
  intro x hx
  obtain ⟨b, hb, rfl⟩ := List.mem_map.mp hx
  by_cases hid : b.id = e'.id
  · simpa [hid] using h b hb
  · simpa [hid] using h b hb

/-- An id present in the list stays present after a save. -/
theorem saveExpense_exists_id (l : List Expense) (e' : Expense) (n : Nat)
    (h : ∃ y ∈ l, y.id = n) : ∃ y ∈ saveExpense l e', y.id = n := by
  obtain ⟨y, hy, hyn⟩ := h
  refine ⟨if y.id = e'.id then e' else y, List.mem_map.mpr ⟨y, hy, rfl⟩, ?_⟩
  by_cases hid : y.id = e'.id
  · simp [hid, hid ▸ hyn]
  · simpa [hid] using hyn

/-- The nodup-keys property restricts to the tasks of one expense. -/
theorem approvalsFor_nodup_ids (l : List Approval)
    (hnd : (l.map Approval.id).Nodup) (x : Nat) :
    ((approvalsFor l x).map Approval.id).Nodup :=
  hnd.sublist ((List.filter_sublist l).map Approval.id)

/-- Saving a task whose id and expense agree with a stored task `a`
rewrites each expense's task list by the pointwise replacement. -/
theorem approvalsFor_save (l : List Approval) (a a' : Approval)
    (hnd : (l.map Approval.id).Nodup) (ha : a ∈ l)
    (hid : a'.id = a.id) (hexp : a'.expense = a.expense) (x : Nat) :
    approvalsFor (saveApproval l a') x =
      (approvalsFor l x).map (fun b => if b.id = a'.id then a' else b) := by
  unfold approvalsFor saveApproval
  rw [List.filter_map]
  congr 1
  apply List.filter_congr
  intro b hb
  by_cases h : b.id = a'.id
  · have hba : b = a := approval_key_inj hnd hb ha (h.trans hid)
    subst hba
    simp [h, hexp]
  · simp [h]

/-- Saving a task of expense `a.expense` leaves every other expense's
task list unchanged. -/
theorem approvalsFor_save_ne (l : List Approval) (a a' : Approval)
    (hnd : (l.map Approval.id).Nodup) (ha : a ∈ l)
    (hid : a'.id = a.id) (hexp : a'.expense = a.expense)
    (x : Nat) (hax : ¬ a.expense = x) :
    approvalsFor (saveApproval l a') x = approvalsFor l x := by
  rw [approvalsFor_save l a a' hnd ha hid hexp x]
  have hcongr : ∀ b ∈ approvalsFor l x,
      (fun b => if b.id = a'.id then a' else b) b = id b := by
    intro b hb
    have hbl : b ∈ l := List.mem_of_mem_filter hb
    have hbx : b.expense = x := by
      have := List.of_mem_filter hb
      simpa using this
    by_cases h : b.id = a'.id
    · have hba : b = a := approval_key_inj hnd hbl ha (h.trans hid)
      exact absurd (hba ▸ hbx) hax
    · simp [h]
  rw [List.map_congr_left hcongr, List.map_id]

/-- Appending one task splits each expense's task list. -/
theorem approvalsFor_append (l : List Approval) (t : Approval) (x : Nat) :
    approvalsFor (l ++ [t]) x =
      approvalsFor l x ++ if t.expense = x then [t] else [] := by
  unfold approvalsFor
  rw [List.filter_append]
  congr 1
  by_cases h : t.expense = x <;> simp [h]

/-- With at most one pending task, a pending member is the only
pending member. -/
theorem pending_unique (ts : List Approval) (a : Approval)
    (hlen : (pendingTasks ts).length ≤ 1) (ha : a ∈ ts)
    (hpend : a.status = .pending) :
    ∀ b ∈ ts, b ≠ a → ¬ b.status = .pending := by
  intro b hb hbne hbp
  have hamem : a ∈ pendingTasks ts := List.mem_filter.mpr ⟨ha, by simp [hpend]⟩
  have hbmem : b ∈ pendingTasks ts := List.mem_filter.mpr ⟨hb, by simp [hbp]⟩
  rcases hP : pendingTasks ts with _ | ⟨c, _ | ⟨d, rest⟩⟩
  · rw [hP] at hamem; simp at hamem
  · rw [hP] at hamem hbmem
    simp only [List.mem_singleton] at hamem hbmem
    exact hbne (hbmem.trans hamem.symm)
  · rw [hP] at hlen; simp at hlen

/-- After replacing the unique pending task by a non-pending record,
no task of the list is pending. -/
theorem map_swap_not_pending (ts : List Approval) (a a' : Approval)
    (hnd : (ts.map Approval.id).Nodup) (ha : a ∈ ts)
    (hpend : a.status = .pending)
    (hlen : (pendingTasks ts).length ≤ 1)
    (hid : a'.id = a.id) (hnp : ¬ a'.status = .pending) :
    ∀ y ∈ ts.map (fun b => if b.id = a'.id then a' else b),
      ¬ y.status = .pending := by
  intro y hy
  obtain ⟨b, hb, rfl⟩ := List.mem_map.mp hy
  by_cases h : b.id = a'.id
  · simpa [h] using hnp
  · have hbne : b ≠ a := fun hc => h (hc ▸ (hid ▸ rfl : a.id = a'.id))
    simpa [h] using pending_unique ts a hlen ha hpend b hb hbne

/-- The same replacement leaves no pending task at all. -/
theorem pendingTasks_map_swap_nil (ts : List Approval) (a a' : Approval)
    (hnd : (ts.map Approval.id).Nodup) (ha : a ∈ ts)
    (hpend : a.status = .pending)
    (hlen : (pendingTasks ts).length ≤ 1)
    (hid : a'.id = a.id) (hnp : ¬ a'.status = .pending) :
    pendingTasks (ts.map (fun b => if b.id = a'.id then a' else b)) = [] := by
  unfold pendingTasks
  rw [List.filter_eq_nil_iff]
  intro y hy
  have := map_swap_not_pending ts a a' hnd ha hpend hlen hid hnp y hy
  simpa using this

/-- Replacing a task by a same-level record preserves the level list. -/
theorem map_swap_levels (ts : List Approval) (a a' : Approval)
    (hnd : (ts.map Approval.id).Nodup) (ha : a ∈ ts)
    (hid : a'.id = a.id) (hlev : a'.level = a.level) :
    (ts.map (fun b => if b.id = a'.id then a' else b)).map Approval.level =
      ts.map Approval.level := by
  rw [List.map_map]
  apply List.map_congr_left
  intro b hb
  by_cases h : b.id = a'.id
  · have hba : b = a := approval_key_inj hnd hb ha (h.trans hid)
    subst hba
    show (if b.id = a'.id then a' else b).level = b.level
    rw [if_pos h, hlev]
  · simp [h]

/-- Core preservation: recording a terminal decision (approve-finalize
or reject) on the unique pending task of expense `e`, writing the
expense to a terminal status with no approver, preserves `Inv`. -/
theorem inv_decided (st : State) (a : Approval) (e : Expense)
    (a' : Approval) (e' : Expense)
    (hinv : Inv st)
    (ha : a ∈ st.approvals) (hpend : a.status = .pending)
    (he : e ∈ st.expenses) (heid : e.id = a.expense)
    (hid : a'.id = a.id) (hlev : a'.level = a.level)
    (hexp2 : a'.expense = a.expense)
    (hnp : ¬ a'.status = .pending)
    (hid2 : e'.id = e.id)
    (hst2 : e'.status = .approved ∨ e'.status = .rejected)
    (happr2 : e'.currentApprover = none) :
    Inv { st with approvals := saveApproval st.approvals a',
                  expenses := saveExpense st.expenses e' } := by
  obtain ⟨hbound, hndE, hboundA, hndA, hrefs, hexpok⟩ := hinv
  have hts_nd : ((approvalsFor st.approvals e.id).map Approval.id).Nodup :=
    approvalsFor_nodup_ids st.approvals hndA e.id
  have ha_ts : a ∈ approvalsFor st.approvals e.id :=
    List.mem_filter.mpr ⟨ha, by simp [heid.symm]⟩
  obtain ⟨hsc_e, hlen_e, hlevnd_e, hmax_e, hterm_e⟩ := hexpok e he
  refine ⟨?_, ?_, ?_, ?_, ?_, ?_⟩
  · exact saveExpense_forall_id st.expenses e'
      (fun n => n < st.nextExpenseId) hbound
  · show ((saveExpense st.expenses e').map Expense.id).Nodup
    rw [saveExpense_map_id]; exact hndE
  · exact saveApproval_forall_id st.approvals a'
      (fun n => n < st.nextApprovalId) hboundA
  · show ((saveApproval st.approvals a').map Approval.id).Nodup
    rw [saveApproval_map_id]; exact hndA
  · intro x hx
    obtain ⟨b, hb, rfl⟩ := List.mem_map.mp hx
    by_cases hb' : b.id = a'.id
    · have hba : b = a := approval_key_inj hndA hb ha (hb'.trans hid)
      subst hba
      have hxe : (if b.id = a'.id then a' else b).expense = b.expense := by
        rw [if_pos hb', hexp2]
      rw [hxe]
      exact saveExpense_exists_id _ _ _ (hrefs b hb)
    · have hxe : (if b.id = a'.id then a' else b).expense = b.expense := by
        simp [hb']
      rw [hxe]
      exact saveExpense_exists_id _ _ _ (hrefs b hb)
  · intro x hx
    obtain ⟨b, hb, rfl⟩ := List.mem_map.mp hx
    by_cases hb' : b.id = e'.id
    · rw [if_pos hb']
      have hAF : approvalsFor (saveApproval st.approvals a') e'.id =
          (approvalsFor st.approvals e.id).map
            (fun y => if y.id = a'.id then a' else y) := by
        rw [hid2]
        exact approvalsFor_save st.approvals a a' hndA ha hid hexp2 e.id
      have hnil : pendingTasks (approvalsFor (saveApproval st.approvals a') e'.id) = [] := by
        rw [hAF]
        exact pendingTasks_map_swap_nil _ a a' hts_nd ha_ts hpend hlen_e hid hnp
      refine ⟨Or.inr (Or.inl ⟨hst2, happr2⟩), ?_, ?_, ?_, fun _ => hnil⟩
      · rw [hnil]; simp
      · rw [hAF, map_swap_levels _ a a' hts_nd ha_ts hid hlev]
        exact hlevnd_e
      · intro y hy hyp
        exfalso
        rw [hAF] at hy
        exact map_swap_not_pending _ a a' hts_nd ha_ts hpend hlen_e hid hnp y hy hyp
    · rw [if_neg hb']
      have hax : ¬ a.expense = b.id := by
        intro hc
        exact hb' (by rw [hid2, heid, hc])
      have hAF : approvalsFor (saveApproval st.approvals a') b.id =
          approvalsFor st.approvals b.id :=
        approvalsFor_save_ne st.approvals a a' hndA ha hid hexp2 b.id hax
      unfold expenseOk statusConsistent
      rw [hAF]
      exact hexpok b hb

/-- Core preservation: advancing the unique pending task of expense
`e` to the next level (saving the acting task as approved, creating
one fresh pending task at level `a.level + 1`, assigning the resolved
approver) preserves `Inv`. -/
theorem inv_advance (st : State) (a : Approval) (e : Expense)
    (cm : Option String) (now uid w : Nat)
    (hinv : Inv st)
    (ha : a ∈ st.approvals) (hpend : a.status = .pending)
    (he : e ∈ st.expenses) (heid : e.id = a.expense) :
    Inv (advanceState st a e cm now uid w) := by
  obtain ⟨hbound, hndE, hboundA, hndA, hrefs, hexpok⟩ := hinv
  have hts_nd : ((approvalsFor st.approvals e.id).map Approval.id).Nodup :=
    approvalsFor_nodup_ids st.approvals hndA e.id
  have ha_ts : a ∈ approvalsFor st.approvals e.id :=
    List.mem_filter.mpr ⟨ha, by simp [heid.symm]⟩
  obtain ⟨hsc_e, hlen_e, hlevnd_e, hmax_e, hterm_e⟩ := hexpok e he
  -- the decided expense cannot already be terminal: it owns a pending task
  have hsp : e.status = .pending ∨ e.status = .partiallyApproved := by
    rcases hsc_e with ⟨h1, _⟩ | ⟨h1, _⟩ | ⟨h1, _, _⟩
    · exact h1
    · exfalso
      have hnil := hterm_e h1
      have ham : a ∈ pendingTasks (approvalsFor st.approvals e.id) :=
        List.mem_filter.mpr ⟨ha_ts, by simp [hpend]⟩
      rw [hnil] at ham
      simp at ham
    · exact Or.inl h1
  have hnpA : ¬ (savedActing a cm now).status = .pending := by
    simp [savedActing]
  have hswap : ∀ b ∈ (approvalsFor st.approvals e.id).map
      (fun y => if y.id = (savedActing a cm now).id then savedActing a cm now else y),
      b.level ≤ a.level := by
    intro b hb
    obtain ⟨c, hc, rfl⟩ := List.mem_map.mp hb
    by_cases h : c.id = (savedActing a cm now).id
    · simp only [if_pos h]
      exact le_of_eq rfl
    · simp only [if_neg h]
      exact hmax_e a ha_ts hpend c hc
  refine ⟨?_, ?_, ?_, ?_, ?_, ?_⟩
  · exact saveExpense_forall_id st.expenses _
      (fun n => n < st.nextExpenseId) hbound
  · show ((saveExpense st.expenses _).map Expense.id).Nodup
    rw [saveExpense_map_id]; exact hndE
  · intro x hx
    rcases List.mem_append.mp hx with hx | hx
    · exact saveApproval_forall_id st.approvals (savedActing a cm now)
        (fun n => n < st.nextApprovalId + 1)
        (fun b hb => Nat.lt_succ_of_lt (hboundA b hb)) x hx
    · rw [List.mem_singleton.mp hx]
      exact Nat.lt_succ_self _
  · show (((saveApproval st.approvals (savedActing a cm now)) ++
      [(⟨st.nextApprovalId, e.id, w, a.level + 1, .pending, none, none, none⟩ :
        Approval)]).map Approval.id).Nodup
    rw [List.map_append, saveApproval_map_id]
    simp only [List.map_cons, List.map_nil]
    refine List.Nodup.append hndA (List.nodup_singleton _) ?_
    intro x hx hx2
    rw [List.mem_singleton] at hx2
    subst hx2
    obtain ⟨b, hb, hbid⟩ := List.mem_map.mp hx
    exact absurd (hbid ▸ hboundA b hb) (lt_irrefl _)
  · intro x hx
    rcases List.mem_append.mp hx with hx | hx
    · obtain ⟨b, hb, rfl⟩ := List.mem_map.mp hx
      by_cases hb2 : b.id = (savedActing a cm now).id
      · have hba : b = a := approval_key_inj hndA hb ha hb2
        have hxe : (if b.id = (savedActing a cm now).id
            then savedActing a cm now else b).expense = b.expense := by
          rw [if_pos hb2]
          show a.expense = b.expense
          rw [hba]
        rw [hxe]
        exact saveExpense_exists_id _ _ _ (hrefs b hb)
      · have hxe : (if b.id = (savedActing a cm now).id
            then savedActing a cm now else b).expense = b.expense := by
          rw [if_neg hb2]
        rw [hxe]
        exact saveExpense_exists_id _ _ _ (hrefs b hb)
    · rw [List.mem_singleton.mp hx]
      exact saveExpense_exists_id _ _ _ ⟨e, he, rfl⟩
  · intro x hx
    obtain ⟨b, hb, rfl⟩ := List.mem_map.mp hx
    by_cases hb2 : b.id = e.id
    · have hbe : b = e := expense_key_inj hndE hb he hb2
      subst hbe
      rw [if_pos hb2]
      -- the advanced expense: tasks are the swapped list plus the new task
      have hAF : approvalsFor ((saveApproval st.approvals (savedActing a cm now)) ++
          [(⟨st.nextApprovalId, b.id, w, a.level + 1, .pending, none, none, none⟩ :
            Approval)]) b.id =
          (approvalsFor st.approvals b.id).map
            (fun y => if y.id = (savedActing a cm now).id then savedActing a cm now else y)
          ++ [(⟨st.nextApprovalId, b.id, w, a.level + 1, .pending, none, none, none⟩ :
            Approval)] := by
        rw [approvalsFor_append,
          approvalsFor_save st.approvals a (savedActing a cm now) hndA ha rfl rfl b.id,
          if_pos rfl]
      have hnil : pendingTasks ((approvalsFor st.approvals b.id).map
          (fun y => if y.id = (savedActing a cm now).id then savedActing a cm now else y)) =
          [] :=
        pendingTasks_map_swap_nil (approvalsFor st.approvals b.id) a
          (savedActing a cm now) hts_nd ha_ts hpend hlen_e rfl hnpA
      unfold expenseOk statusConsistent advanceState
      dsimp only
      rw [hAF]
      refine ⟨?_, ?_, ?_, ?_, ?_⟩
      · exact Or.inl ⟨hsp, by simp⟩
      · unfold pendingTasks
        rw [List.filter_append]
        have hnil2 := hnil
        unfold pendingTasks at hnil2
        rw [hnil2]
        simp
      · rw [List.map_append,
          map_swap_levels (approvalsFor st.approvals b.id) a (savedActing a cm now)
            hts_nd ha_ts rfl rfl]
        simp only [List.map_cons, List.map_nil]
        refine List.Nodup.append hlevnd_e (List.nodup_singleton _) ?_
        intro x hx2 hx3
        rw [List.mem_singleton] at hx3
        subst hx3
        obtain ⟨y, hy, hyl⟩ := List.mem_map.mp hx2
        have := hmax_e a ha_ts hpend y hy
        omega
      · intro y hy hyp b2 hb3
        rcases List.mem_append.mp hy with hy | hy
        · exact absurd hyp (map_swap_not_pending (approvalsFor st.approvals b.id) a
            (savedActing a cm now) hts_nd ha_ts hpend hlen_e rfl hnpA y hy)
        · have hyt := List.mem_singleton.mp hy
          rcases List.mem_append.mp hb3 with hb3 | hb3
          · have hle := hswap b2 hb3
            rw [hyt]
            exact Nat.le_succ_of_le hle
          · rw [hyt, List.mem_singleton.mp hb3]
      · intro hterm
        exfalso
        rcases hsp with h | h <;> rcases hterm with h2 | h2 <;> rw [h] at h2 <;> cases h2
    · rw [if_neg hb2]
      have hax : ¬ a.expense = b.id := by
        intro hc
        exact hb2 (by rw [heid, hc])
      have hAF : approvalsFor ((saveApproval st.approvals (savedActing a cm now)) ++
          [(⟨st.nextApprovalId, e.id, w, a.level + 1, .pending, none, none, none⟩ :
            Approval)]) b.id =
          approvalsFor st.approvals b.id := by
        rw [approvalsFor_append,
          if_neg (show ¬ (⟨st.nextApprovalId, e.id, w, a.level + 1, .pending, none, none,
            none⟩ : Approval).expense = b.id from fun hc => hb2 hc.symm),
          List.append_nil,
          approvalsFor_save_ne st.approvals a (savedActing a cm now) hndA ha rfl rfl
            b.id hax]
      unfold expenseOk statusConsistent advanceState
      dsimp only
      rw [hAF]
      exact hexpok b hb

/-- A fresh expense id (the counter value) has no tasks yet. -/
theorem approvalsFor_fresh (st : State)
    (hrefs : ∀ a ∈ st.approvals, ∃ e ∈ st.expenses, e.id = a.expense)
    (hbound : ∀ e ∈ st.expenses, e.id < st.nextExpenseId) :
    approvalsFor st.approvals st.nextExpenseId = [] := by
  unfold approvalsFor
  rw [List.filter_eq_nil_iff]
  intro a ha
  obtain ⟨e, he, hee⟩ := hrefs a ha
  have hlt := hbound e he
  simp only [decide_eq_true_eq]
  intro hc
  rw [hc] at hee
  rw [hee] at hlt
  exact absurd hlt (lt_irrefl _)

/-- Preservation: a submit with no resolvable manager. -/
theorem inv_submitStalled (st : State) (u : User) (amount : ℚ)
    (currency : String) (rate : ℚ) (hinv : Inv st) :
    Inv (submitStalledState st u amount currency rate) := by
  obtain ⟨hbound, hndE, hboundA, hndA, hrefs, hexpok⟩ := hinv
  have hfresh : approvalsFor st.approvals st.nextExpenseId = [] :=
    approvalsFor_fresh st hrefs hbound
  refine ⟨?_, ?_, ?_, ?_, ?_, ?_⟩
  · intro x hx
    rcases List.mem_append.mp hx with hx | hx
    · exact Nat.lt_succ_of_lt (hbound x hx)
    · rw [List.mem_singleton.mp hx]
      exact Nat.lt_succ_self _
  · show ((st.expenses ++ [newExpense st u amount currency rate]).map Expense.id).Nodup
    rw [List.map_append]
    simp only [List.map_cons, List.map_nil]
    refine List.Nodup.append hndE (List.nodup_singleton _) ?_
    intro x hx hx2
    rw [List.mem_singleton] at hx2
    subst hx2
    obtain ⟨b, hb, hbid⟩ := List.mem_map.mp hx
    exact absurd (hbid ▸ hbound b hb) (lt_irrefl _)
  · exact hboundA
  · exact hndA
  · intro a ha
    obtain ⟨e, he, hee⟩ := hrefs a ha
    exact ⟨e, List.mem_append_left _ he, hee⟩
  · intro x hx
    rcases List.mem_append.mp hx with hx | hx
    · exact hexpok x hx
    · rw [List.mem_singleton.mp hx]
      unfold expenseOk statusConsistent submitStalledState newExpense
      dsimp only
      rw [hfresh]
      refine ⟨Or.inr (Or.inr ⟨rfl, rfl, rfl⟩), by simp [pendingTasks], by simp, ?_,
        fun _ => rfl⟩
      intro y hy
      simp [pendingTasks] at hy

/-- Preservation: a submit whose employee has a resolvable manager. -/
theorem inv_submitAssigned (st : State) (u : User) (amount : ℚ)
    (currency : String) (rate : ℚ) (m : User) (hinv : Inv st) :
    Inv (submitAssignedState st u amount currency rate m) := by
  obtain ⟨hbound, hndE, hboundA, hndA, hrefs, hexpok⟩ := hinv
  have hfresh : approvalsFor st.approvals st.nextExpenseId = [] :=
    approvalsFor_fresh st hrefs hbound
  have hboundApp : ∀ b ∈ st.expenses ++ [newExpense st u amount currency rate],
      b.id < st.nextExpenseId + 1 := by
    intro b hb
    rcases List.mem_append.mp hb with hb | hb
    · exact Nat.lt_succ_of_lt (hbound b hb)
    · rw [List.mem_singleton.mp hb]
      exact Nat.lt_succ_self _
  refine ⟨?_, ?_, ?_, ?_, ?_, ?_⟩
  · exact saveExpense_forall_id _ _ (fun n => n < st.nextExpenseId + 1) hboundApp
  · show ((saveExpense (st.expenses ++ [newExpense st u amount currency rate]) _).map
      Expense.id).Nodup
    rw [saveExpense_map_id, List.map_append]
    simp only [List.map_cons, List.map_nil]
    refine List.Nodup.append hndE (List.nodup_singleton _) ?_
    intro x hx hx2
    rw [List.mem_singleton] at hx2
    subst hx2
    obtain ⟨b, hb, hbid⟩ := List.mem_map.mp hx
    exact absurd (hbid ▸ hbound b hb) (lt_irrefl _)
  · intro x hx
    rcases List.mem_append.mp hx with hx | hx
    · exact Nat.lt_succ_of_lt (hboundA x hx)
    · rw [List.mem_singleton.mp hx]
      exact Nat.lt_succ_self _
  · show ((st.approvals ++
      [(⟨st.nextApprovalId, st.nextExpenseId, m.id, 1, .pending, none, none, none⟩ :
        Approval)]).map Approval.id).Nodup
    rw [List.map_append]
    simp only [List.map_cons, List.map_nil]
    refine List.Nodup.append hndA (List.nodup_singleton _) ?_
    intro x hx hx2
    rw [List.mem_singleton] at hx2
    subst hx2
    obtain ⟨b, hb, hbid⟩ := List.mem_map.mp hx
    exact absurd (hbid ▸ hboundA b hb) (lt_irrefl _)
  · intro a ha
    rcases List.mem_append.mp ha with ha | ha
    · obtain ⟨e, he, hee⟩ := hrefs a ha
      exact saveExpense_exists_id _ _ _ ⟨e, List.mem_append_left _ he, hee⟩
    · rw [List.mem_singleton.mp ha]
      exact saveExpense_exists_id _ _ _
        ⟨newExpense st u amount currency rate,
         List.mem_append_right _ (List.mem_singleton.mpr rfl), rfl⟩
  · intro x hx
    obtain ⟨b, hb, rfl⟩ := List.mem_map.mp hx
    have hE : ({ newExpense st u amount currency rate with
      currentApprover := some m.id } : Expense).id = st.nextExpenseId := rfl
    rw [hE]
    rcases List.mem_append.mp hb with hbL | hbR
    · -- an old expense: its id differs from the fresh one; unchanged
      have hbne : ¬ b.id = st.nextExpenseId := Nat.ne_of_lt (hbound b hbL)
      rw [if_neg hbne]
      have hAF : approvalsFor (st.approvals ++
          [(⟨st.nextApprovalId, st.nextExpenseId, m.id, 1, .pending, none, none, none⟩ :
            Approval)]) b.id = approvalsFor st.approvals b.id := by
        rw [approvalsFor_append,
          if_neg (show ¬ (⟨st.nextApprovalId, st.nextExpenseId, m.id, 1, .pending, none,
            none, none⟩ : Approval).expense = b.id from fun hc => hbne hc.symm),
          List.append_nil]
      unfold expenseOk statusConsistent submitAssignedState
      dsimp only
      rw [hAF]
      exact hexpok b hbL
    · -- the fresh expense, now assigned to the manager
      rw [List.mem_singleton.mp hbR,
        if_pos (show (newExpense st u amount currency rate).id = st.nextExpenseId
          from rfl)]
      unfold expenseOk statusConsistent submitAssignedState newExpense
      dsimp only
      rw [approvalsFor_append, if_pos rfl, hfresh, List.nil_append]
      refine ⟨Or.inl ⟨Or.inl rfl, by simp⟩, by simp [pendingTasks], by simp, ?_, ?_⟩
      · intro y hy hyp b2 hb2
        rw [List.mem_singleton.mp hy, List.mem_singleton.mp hb2]
      · intro hterm
        rcases hterm with h | h <;> exact ExpenseStatus.noConfusion h

/-- The invariant holds in every initial state. -/
theorem inv_init (st : State) (h : InitState st) : Inv st := by
  obtain ⟨he, ha⟩ := h
  refine ⟨?_, ?_, ?_, ?_, ?_, ?_⟩ <;> simp [he, ha]

/-- The invariant is preserved by every successful engine operation. -/
theorem inv_step (st st' : State) (h : Step st st') (hinv : Inv st) : Inv st' := by
  rcases h with ⟨uid, amount, currency, rate, hsub⟩ |
    ⟨uid, aid, cm, now, happ⟩ | ⟨uid, aid, reason, cm, now, hrej⟩
  · obtain ⟨u, hauth, hcase⟩ :=
      submitExpense_ok_inversion st uid amount currency rate st' hsub
    rcases hcase with rfl | ⟨m, hm, rfl⟩
    · exact inv_submitStalled st u amount currency rate hinv
    · exact inv_submitAssigned st u amount currency rate m hinv
  · obtain ⟨v, hh⟩ := approveRoute_ok_inversion st uid aid cm now st' happ
    obtain ⟨a, e, c, hfind, happr, hpend, hexp, hcomp, hcase⟩ :=
      approveHandler_ok_inversion st aid v cm now st' hh
    have ha : a ∈ st.approvals := List.mem_of_find?_eq_some hfind
    have he : e ∈ st.expenses := List.mem_of_find?_eq_some hexp
    have heid : e.id = a.expense := findExpense_eq_id st a.expense e hexp
    rcases hcase with rfl | ⟨w, hres, hlev, rfl⟩
    · exact inv_decided st a e (savedActing a cm now)
        { e with status := .approved, currentApprover := none,
                 approvedBy := e.approvedBy ++ [ApprovalEvent.mk v a.level now cm] }
        hinv ha hpend he heid rfl rfl rfl (by simp [savedActing]) rfl (Or.inl rfl) rfl
    · exact inv_advance st a e cm now v w hinv ha hpend he heid
  · obtain ⟨v, hh⟩ := rejectRoute_ok_inversion st uid aid reason cm now st' hrej
    obtain ⟨a, e, hfind, happr, hpend, hexp, rfl⟩ :=
      rejectHandler_ok_inversion st aid v reason cm now st' hh
    have ha : a ∈ st.approvals := List.mem_of_find?_eq_some hfind
    have he : e ∈ st.expenses := List.mem_of_find?_eq_some hexp
    have heid : e.id = a.expense := findExpense_eq_id st a.expense e hexp
    exact inv_decided st a e
      { a with status := .rejected, rejectionReason := some reason,
               comments := cm, approvedAt := some now }
      { e with status := .rejected, rejectionReason := some reason,
               currentApprover := none,
               rejectedBy := e.rejectedBy ++ [RejectionEvent.mk v a.level now reason] }
      hinv ha hpend he heid rfl rfl rfl (by simp) rfl (Or.inr rfl) rfl

/-- The invariant holds in every reachable state. -/
theorem inv_reachable (st₀ st : State) (h0 : InitState st₀)
    (h : Reachable st₀ st) : Inv st := by
  induction h with
  | refl => exact inv_init st₀ h0
  | tail hsteps hstep ih => exact inv_step _ _ hstep ih

/-! ### C6 / C7 -/

def c6u : User := ⟨2, 1, .employee, true, none⟩

def c6st0 : State := ⟨[⟨1, "USD", ⟨.percentage, 60, []⟩⟩], [c6u], [], [], 1, 1⟩

/-- C6, counterexample — An expense submitted by an employee with
no manager (`c6u.manager = none`) is stored `pending` with
`currentApprover = none`: a reachable expense satisfying *neither*
side of the claimed dichotomy.  The claim as stated is therefore false
on the code. -/
theorem c6_invariant_counterexample :
    InitState c6st0 ∧
    ∃ st', submitExpense c6st0 2 10 "USD" 1 = .ok st' ∧
      ∃ e ∈ st'.expenses, e.status = .pending ∧ e.currentApprover = none ∧
        ¬(((e.status = .pending ∨ e.status = .partiallyApproved) ∧
            e.currentApprover ≠ none) ∨
          ((e.status = .approved ∨ e.status = .rejected) ∧
            e.currentApprover = none)) := by
  refine ⟨⟨rfl, rfl⟩, _, rfl, newExpense c6st0 c6u 10 "USD" 1, ?_, rfl, rfl, ?_⟩
  · exact List.mem_append_right _ (List.mem_singleton.mpr rfl)
  · decide

/-- C6, amended — For every expense reachable through the engine's
operations, exactly one of: (pending or partially_approved with a
non-null `currentApprover`), (approved or rejected with
`currentApprover = none`), or the stalled submission case the code
also produces — `pending` with `currentApprover = none` and no
approval task ever created for it (an employee with no resolvable
manager). -/
theorem c6_status_approver_invariant_amended (st₀ st : State)
    (h0 : InitState st₀) (h : Reachable st₀ st) :
    ∀ e ∈ st.expenses,
      ((e.status = .pending ∨ e.status = .partiallyApproved) ∧
        e.currentApprover ≠ none) ∨
      ((e.status = .approved ∨ e.status = .rejected) ∧
        e.currentApprover = none) ∨
      (e.status = .pending ∧ e.currentApprover = none ∧
        approvalsFor st.approvals e.id = []) :=
  fun e he => ((inv_reachable st₀ st h0 h).2.2.2.2.2 e he).1

def c6wu : User := ⟨2, 1, .employee, true, some 3⟩

def c6wm : User := ⟨3, 1, .manager, true, none⟩

def c6wst0 : State :=
  ⟨[⟨1, "USD", ⟨.percentage, 60, []⟩⟩], [c6wu, c6wm], [], [], 1, 1⟩

def c6w1 : State := submitAssignedState c6wst0 c6wu 10 "USD" 1 c6wm

/-- Witness for the amended C6: a concrete initial state and the
reachable state after one submit (with a manager), for which the
amended trichotomy holds. -/
theorem c6_status_approver_invariant_amended_witness :
    InitState c6wst0 ∧ Reachable c6wst0 c6w1 ∧
    ∀ e ∈ c6w1.expenses,
      ((e.status = .pending ∨ e.status = .partiallyApproved) ∧
        e.currentApprover ≠ none) ∨
      ((e.status = .approved ∨ e.status = .rejected) ∧
        e.currentApprover = none) ∨
      (e.status = .pending ∧ e.currentApprover = none ∧
        approvalsFor c6w1.approvals e.id = []) := by
  have hstep : Step c6wst0 c6w1 := Or.inl ⟨2, 10, "USD", 1, rfl⟩
  have hre : Reachable c6wst0 c6w1 := Relation.ReflTransGen.single hstep
  exact ⟨⟨rfl, rfl⟩, hre,
    c6_status_approver_invariant_amended c6wst0 c6w1 ⟨rfl, rfl⟩ hre⟩

/-- C7 — In every reachable state, each expense has at most one
pending task, its tasks have pairwise distinct levels (hence at most
one task per (expense, level) pair ever enters `pending`, and a new
pending task appears only after the previous one left `pending`), and
globally any two tasks agreeing on expense and level are the same
task. -/
theorem c7_at_most_one_pending_task (st₀ st : State)
    (h0 : InitState st₀) (h : Reachable st₀ st) :
    (∀ e ∈ st.expenses,
      (pendingTasks (approvalsFor st.approvals e.id)).length ≤ 1 ∧
      ((approvalsFor st.approvals e.id).map Approval.level).Nodup) ∧
    (∀ x ∈ st.approvals, ∀ y ∈ st.approvals,
      x.expense = y.expense → x.level = y.level → x = y) := by
  have hinv := inv_reachable st₀ st h0 h
  obtain ⟨hbound, hndE, hboundA, hndA, hrefs, hexpok⟩ := hinv
  constructor
  · intro e he
    obtain ⟨_, h1, h2, _, _⟩ := hexpok e he
    exact ⟨h1, h2⟩
  · intro x hx y hy hexp hlev
    obtain ⟨e, he, hee⟩ := hrefs x hx
    obtain ⟨_, _, hnodup, _, _⟩ := hexpok e he
    have hx2 : x ∈ approvalsFor st.approvals e.id :=
      List.mem_filter.mpr ⟨hx, by simp [hee]⟩
    have hy2 : y ∈ approvalsFor st.approvals e.id :=
      List.mem_filter.mpr ⟨hy, by simp [hee, hexp]⟩
    exact List.inj_on_of_nodup_map hnodup hx2 hy2 hlev

/-- Witness for C7 at the same concrete one-step reachable state. -/
theorem c7_at_most_one_pending_task_witness :
    InitState c6wst0 ∧ Reachable c6wst0 c6w1 ∧
    ((∀ e ∈ c6w1.expenses,
      (pendingTasks (approvalsFor c6w1.approvals e.id)).length ≤ 1 ∧
      ((approvalsFor c6w1.approvals e.id).map Approval.level).Nodup) ∧
    (∀ x ∈ c6w1.approvals, ∀ y ∈ c6w1.approvals,
      x.expense = y.expense → x.level = y.level → x = y)) := by
  have hstep : Step c6wst0 c6w1 := Or.inl ⟨2, 10, "USD", 1, rfl⟩
  have hre : Reachable c6wst0 c6w1 := Relation.ReflTransGen.single hstep
  exact ⟨⟨rfl, rfl⟩, hre,
    c7_at_most_one_pending_task c6wst0 c6w1 ⟨rfl, rfl⟩ hre⟩

end ExpenseApp
